import Mathlib

/-!
Verification of the class-file string editor core (`utils/fileHelpers.ts`).

The development shallowly embeds the constant-pool walker, string extractor,
text-format codec and assembler of the repository.  Byte buffers
(`Uint8Array`) are modelled as `List Nat` whose elements are bytes
(`< 256`); JavaScript strings are modelled as Lean `String`
(sequences of Unicode scalar values; the source never materialises lone
surrogates except inside `JSON.parse`, see `jsonStr`).  Fallible
operations (JavaScript exceptions) are modelled with `Except`.
-/

namespace ByteEd

/-- `DataView.getUint8`: one byte, `none` models the thrown `RangeError`. -/
def getUint8 (b : List Nat) (off : Nat) : Option Nat := b.get? off

/-- `DataView.getUint16` (big endian), `none` models the thrown `RangeError`. -/
def getUint16 (b : List Nat) (off : Nat) : Option Nat :=
  match b.get? off, b.get? (off + 1) with
  | some x, some y => some (x * 256 + y)
  | _, _ => none

/-- `DataView.getUint32` (big endian), `none` models the thrown `RangeError`. -/
def getUint32 (b : List Nat) (off : Nat) : Option Nat :=
  match b.get? off, b.get? (off + 1), b.get? (off + 2), b.get? (off + 3) with
  | some x, some y, some z, some w =>
      some (((x * 256 + y) * 256 + z) * 256 + w)
  | _, _, _, _ => none

/-- `Uint8Array.slice (off, off+len)`: clamps at the end of the buffer. -/
def sliceBytes (b : List Nat) (off len : Nat) : List Nat :=
  (b.drop off).take len

/-- The two bytes pushed by `writeU2`: `(v >> 8) & 0xFF` then `v & 0xFF`
(for `v < 2 ^ 31`, `(v >> 8) & 0xFF = v / 256 % 256`). -/
def writeU2bytes (v : Nat) : List Nat := [v / 256 % 256, v % 256]

/-! ### UTF-8 codec (`TextDecoder` / `TextEncoder`) -/

/-- The replacement character U+FFFD emitted by `TextDecoder` on
malformed input. -/
def fffd : Char := Char.ofNat 0xFFFD

/-- A UTF-8 continuation byte. -/
def isCont (b : Nat) : Bool := 0x80 ≤ b && b ≤ 0xBF

/-- WHATWG UTF-8 decoding with U+FFFD replacement, as performed by
`new TextDecoder(utf-8).decode` (the non-fatal default).  On a malformed
byte the decoder emits U+FFFD and re-examines the offending byte; a
sequence truncated at end of input yields a single U+FFFD. -/
def utf8DecodeL : List Nat → List Char
  | [] => []
  | b :: rest =>
    if b < 0x80 then Char.ofNat b :: utf8DecodeL rest
    else if 0xC2 ≤ b && b ≤ 0xDF then
      match rest with
      | [] => [fffd]
      | c1 :: r1 =>
        if isCont c1 then
          Char.ofNat ((b - 0xC0) * 64 + (c1 - 0x80)) :: utf8DecodeL r1
        else fffd :: utf8DecodeL (c1 :: r1)
    else if 0xE0 ≤ b && b ≤ 0xEF then
      match rest with
      | [] => [fffd]
      | c1 :: r1 =>
        if (if b = 0xE0 then 0xA0 else 0x80) ≤ c1 &&
           c1 ≤ (if b = 0xED then 0x9F else 0xBF) then
          match r1 with
          | [] => [fffd]
          | c2 :: r2 =>
            if isCont c2 then
              Char.ofNat ((b - 0xE0) * 4096 + (c1 - 0x80) * 64 + (c2 - 0x80)) ::
                utf8DecodeL r2
            else fffd :: utf8DecodeL (c2 :: r2)
        else fffd :: utf8DecodeL (c1 :: r1)
    else if 0xF0 ≤ b && b ≤ 0xF4 then
      match rest with
      | [] => [fffd]
      | c1 :: r1 =>
        if (if b = 0xF0 then 0x90 else 0x80) ≤ c1 &&
           c1 ≤ (if b = 0xF4 then 0x8F else 0xBF) then
          match r1 with
          | [] => [fffd]
          | c2 :: r2 =>
            if isCont c2 then
              match r2 with
              | [] => [fffd]
              | c3 :: r3 =>
                if isCont c3 then
                  Char.ofNat ((b - 0xF0) * 262144 + (c1 - 0x80) * 4096 +
                      (c2 - 0x80) * 64 + (c3 - 0x80)) :: utf8DecodeL r3
                else fffd :: utf8DecodeL (c3 :: r3)
            else fffd :: utf8DecodeL (c2 :: r2)
        else fffd :: utf8DecodeL (c1 :: r1)
    else fffd :: utf8DecodeL rest

/-- `new TextDecoder(utf-8)` with the default `ignoreBOM: false` strips a
leading byte-order mark before decoding. -/
def utf8Decode (b : List Nat) : String :=
  ⟨utf8DecodeL (if b.take 3 = [0xEF, 0xBB, 0xBF] then b.drop 3 else b)⟩

/-- UTF-8 encoding of one scalar value (`TextEncoder`). -/
def utf8EncodeChar (c : Char) : List Nat :=
  let n := c.toNat
  if n < 0x80 then [n]
  else if n < 0x800 then [0xC0 + n / 64, 0x80 + n % 64]
  else if n < 0x10000 then
    [0xE0 + n / 4096, 0x80 + n / 64 % 64, 0x80 + n % 64]
  else
    [0xF0 + n / 262144, 0x80 + n / 4096 % 64, 0x80 + n / 64 % 64, 0x80 + n % 64]

/-- `new TextEncoder().encode`. -/
def utf8Encode (s : String) : List Nat := (s.data.map utf8EncodeChar).flatten

/-! ### The eligibility filter `isValidString` -/

/-- Length of a string counted in UTF-16 code units, which is what the
JavaScript `text.length` used by `isValidString` measures. -/
def utf16Length (s : String) : Nat :=
  (s.data.map (fun c => if c.toNat < 0x10000 then 1 else 2)).sum

/-- Is `pre` a prefix of `l`?  Models `String.prototype.startsWith`. -/
def isPrefixOfL : List Char → List Char → Bool
  | [], _ => true
  | _ :: _, [] => false
  | a :: asx, b :: bs => a = b && isPrefixOfL asx bs

/-- Does `sub` occur inside `s`?  Models `String.prototype.includes`. -/
def containsSubL (s sub : List Char) : Bool :=
  match s with
  | [] => sub.isEmpty
  | _ :: rest => isPrefixOfL sub s || containsSubL rest sub

def startsWithS (s pre : String) : Bool := isPrefixOfL pre.data s.data

def containsSub (s sub : String) : Bool := containsSubL s.data sub.data

/-- The code point ranges of the Unicode general category `Letter`
(Unicode 14.0 character database), i.e. the set matched by `/\p{L}/u`:
closed intervals in ascending code point order. -/
def letterRanges : List (Nat × Nat) :=
  [(65, 90), (97, 122), (170, 170), (181, 181), (186, 186), (192, 214),
   (216, 246), (248, 705), (710, 721), (736, 740), (748, 748), (750, 750),
   (880, 884), (886, 887), (890, 893), (895, 895), (902, 902), (904, 906),
   (908, 908), (910, 929), (931, 1013), (1015, 1153), (1162, 1327), (1329, 1366),
   (1369, 1369), (1376, 1416), (1488, 1514), (1519, 1522), (1568, 1610), (1646, 1647),
   (1649, 1747), (1749, 1749), (1765, 1766), (1774, 1775), (1786, 1788), (1791, 1791),
   (1808, 1808), (1810, 1839), (1869, 1957), (1969, 1969), (1994, 2026), (2036, 2037),
   (2042, 2042), (2048, 2069), (2074, 2074), (2084, 2084), (2088, 2088), (2112, 2136),
   (2144, 2154), (2160, 2183), (2185, 2190), (2208, 2249), (2308, 2361), (2365, 2365),
   (2384, 2384), (2392, 2401), (2417, 2432), (2437, 2444), (2447, 2448), (2451, 2472),
   (2474, 2480), (2482, 2482), (2486, 2489), (2493, 2493), (2510, 2510), (2524, 2525),
   (2527, 2529), (2544, 2545), (2556, 2556), (2565, 2570), (2575, 2576), (2579, 2600),
   (2602, 2608), (2610, 2611), (2613, 2614), (2616, 2617), (2649, 2652), (2654, 2654),
   (2674, 2676), (2693, 2701), (2703, 2705), (2707, 2728), (2730, 2736), (2738, 2739),
   (2741, 2745), (2749, 2749), (2768, 2768), (2784, 2785), (2809, 2809), (2821, 2828),
   (2831, 2832), (2835, 2856), (2858, 2864), (2866, 2867), (2869, 2873), (2877, 2877),
   (2908, 2909), (2911, 2913), (2929, 2929), (2947, 2947), (2949, 2954), (2958, 2960),
   (2962, 2965), (2969, 2970), (2972, 2972), (2974, 2975), (2979, 2980), (2984, 2986),
   (2990, 3001), (3024, 3024), (3077, 3084), (3086, 3088), (3090, 3112), (3114, 3129),
   (3133, 3133), (3160, 3162), (3165, 3165), (3168, 3169), (3200, 3200), (3205, 3212),
   (3214, 3216), (3218, 3240), (3242, 3251), (3253, 3257), (3261, 3261), (3293, 3294),
   (3296, 3297), (3313, 3314), (3332, 3340), (3342, 3344), (3346, 3386), (3389, 3389),
   (3406, 3406), (3412, 3414), (3423, 3425), (3450, 3455), (3461, 3478), (3482, 3505),
   (3507, 3515), (3517, 3517), (3520, 3526), (3585, 3632), (3634, 3635), (3648, 3654),
   (3713, 3714), (3716, 3716), (3718, 3722), (3724, 3747), (3749, 3749), (3751, 3760),
   (3762, 3763), (3773, 3773), (3776, 3780), (3782, 3782), (3804, 3807), (3840, 3840),
   (3904, 3911), (3913, 3948), (3976, 3980), (4096, 4138), (4159, 4159), (4176, 4181),
   (4186, 4189), (4193, 4193), (4197, 4198), (4206, 4208), (4213, 4225), (4238, 4238),
   (4256, 4293), (4295, 4295), (4301, 4301), (4304, 4346), (4348, 4680), (4682, 4685),
   (4688, 4694), (4696, 4696), (4698, 4701), (4704, 4744), (4746, 4749), (4752, 4784),
   (4786, 4789), (4792, 4798), (4800, 4800), (4802, 4805), (4808, 4822), (4824, 4880),
   (4882, 4885), (4888, 4954), (4992, 5007), (5024, 5109), (5112, 5117), (5121, 5740),
   (5743, 5759), (5761, 5786), (5792, 5866), (5873, 5880), (5888, 5905), (5919, 5937),
   (5952, 5969), (5984, 5996), (5998, 6000), (6016, 6067), (6103, 6103), (6108, 6108),
   (6176, 6264), (6272, 6276), (6279, 6312), (6314, 6314), (6320, 6389), (6400, 6430),
   (6480, 6509), (6512, 6516), (6528, 6571), (6576, 6601), (6656, 6678), (6688, 6740),
   (6823, 6823), (6917, 6963), (6981, 6988), (7043, 7072), (7086, 7087), (7098, 7141),
   (7168, 7203), (7245, 7247), (7258, 7293), (7296, 7304), (7312, 7354), (7357, 7359),
   (7401, 7404), (7406, 7411), (7413, 7414), (7418, 7418), (7424, 7615), (7680, 7957),
   (7960, 7965), (7968, 8005), (8008, 8013), (8016, 8023), (8025, 8025), (8027, 8027),
   (8029, 8029), (8031, 8061), (8064, 8116), (8118, 8124), (8126, 8126), (8130, 8132),
   (8134, 8140), (8144, 8147), (8150, 8155), (8160, 8172), (8178, 8180), (8182, 8188),
   (8305, 8305), (8319, 8319), (8336, 8348), (8450, 8450), (8455, 8455), (8458, 8467),
   (8469, 8469), (8473, 8477), (8484, 8484), (8486, 8486), (8488, 8488), (8490, 8493),
   (8495, 8505), (8508, 8511), (8517, 8521), (8526, 8526), (8579, 8580), (11264, 11492),
   (11499, 11502), (11506, 11507), (11520, 11557), (11559, 11559), (11565, 11565), (11568, 11623),
   (11631, 11631), (11648, 11670), (11680, 11686), (11688, 11694), (11696, 11702), (11704, 11710),
   (11712, 11718), (11720, 11726), (11728, 11734), (11736, 11742), (11823, 11823), (12293, 12294),
   (12337, 12341), (12347, 12348), (12353, 12438), (12445, 12447), (12449, 12538), (12540, 12543),
   (12549, 12591), (12593, 12686), (12704, 12735), (12784, 12799), (13312, 19903), (19968, 42124),
   (42192, 42237), (42240, 42508), (42512, 42527), (42538, 42539), (42560, 42606), (42623, 42653),
   (42656, 42725), (42775, 42783), (42786, 42888), (42891, 42954), (42960, 42961), (42963, 42963),
   (42965, 42969), (42994, 43009), (43011, 43013), (43015, 43018), (43020, 43042), (43072, 43123),
   (43138, 43187), (43250, 43255), (43259, 43259), (43261, 43262), (43274, 43301), (43312, 43334),
   (43360, 43388), (43396, 43442), (43471, 43471), (43488, 43492), (43494, 43503), (43514, 43518),
   (43520, 43560), (43584, 43586), (43588, 43595), (43616, 43638), (43642, 43642), (43646, 43695),
   (43697, 43697), (43701, 43702), (43705, 43709), (43712, 43712), (43714, 43714), (43739, 43741),
   (43744, 43754), (43762, 43764), (43777, 43782), (43785, 43790), (43793, 43798), (43808, 43814),
   (43816, 43822), (43824, 43866), (43868, 43881), (43888, 44002), (44032, 55203), (55216, 55238),
   (55243, 55291), (63744, 64109), (64112, 64217), (64256, 64262), (64275, 64279), (64285, 64285),
   (64287, 64296), (64298, 64310), (64312, 64316), (64318, 64318), (64320, 64321), (64323, 64324),
   (64326, 64433), (64467, 64829), (64848, 64911), (64914, 64967), (65008, 65019), (65136, 65140),
   (65142, 65276), (65313, 65338), (65345, 65370), (65382, 65470), (65474, 65479), (65482, 65487),
   (65490, 65495), (65498, 65500), (65536, 65547), (65549, 65574), (65576, 65594), (65596, 65597),
   (65599, 65613), (65616, 65629), (65664, 65786), (66176, 66204), (66208, 66256), (66304, 66335),
   (66349, 66368), (66370, 66377), (66384, 66421), (66432, 66461), (66464, 66499), (66504, 66511),
   (66560, 66717), (66736, 66771), (66776, 66811), (66816, 66855), (66864, 66915), (66928, 66938),
   (66940, 66954), (66956, 66962), (66964, 66965), (66967, 66977), (66979, 66993), (66995, 67001),
   (67003, 67004), (67072, 67382), (67392, 67413), (67424, 67431), (67456, 67461), (67463, 67504),
   (67506, 67514), (67584, 67589), (67592, 67592), (67594, 67637), (67639, 67640), (67644, 67644),
   (67647, 67669), (67680, 67702), (67712, 67742), (67808, 67826), (67828, 67829), (67840, 67861),
   (67872, 67897), (67968, 68023), (68030, 68031), (68096, 68096), (68112, 68115), (68117, 68119),
   (68121, 68149), (68192, 68220), (68224, 68252), (68288, 68295), (68297, 68324), (68352, 68405),
   (68416, 68437), (68448, 68466), (68480, 68497), (68608, 68680), (68736, 68786), (68800, 68850),
   (68864, 68899), (69248, 69289), (69296, 69297), (69376, 69404), (69415, 69415), (69424, 69445),
   (69488, 69505), (69552, 69572), (69600, 69622), (69635, 69687), (69745, 69746), (69749, 69749),
   (69763, 69807), (69840, 69864), (69891, 69926), (69956, 69956), (69959, 69959), (69968, 70002),
   (70006, 70006), (70019, 70066), (70081, 70084), (70106, 70106), (70108, 70108), (70144, 70161),
   (70163, 70187), (70272, 70278), (70280, 70280), (70282, 70285), (70287, 70301), (70303, 70312),
   (70320, 70366), (70405, 70412), (70415, 70416), (70419, 70440), (70442, 70448), (70450, 70451),
   (70453, 70457), (70461, 70461), (70480, 70480), (70493, 70497), (70656, 70708), (70727, 70730),
   (70751, 70753), (70784, 70831), (70852, 70853), (70855, 70855), (71040, 71086), (71128, 71131),
   (71168, 71215), (71236, 71236), (71296, 71338), (71352, 71352), (71424, 71450), (71488, 71494),
   (71680, 71723), (71840, 71903), (71935, 71942), (71945, 71945), (71948, 71955), (71957, 71958),
   (71960, 71983), (71999, 71999), (72001, 72001), (72096, 72103), (72106, 72144), (72161, 72161),
   (72163, 72163), (72192, 72192), (72203, 72242), (72250, 72250), (72272, 72272), (72284, 72329),
   (72349, 72349), (72368, 72440), (72704, 72712), (72714, 72750), (72768, 72768), (72818, 72847),
   (72960, 72966), (72968, 72969), (72971, 73008), (73030, 73030), (73056, 73061), (73063, 73064),
   (73066, 73097), (73112, 73112), (73440, 73458), (73648, 73648), (73728, 74649), (74880, 75075),
   (77712, 77808), (77824, 78894), (82944, 83526), (92160, 92728), (92736, 92766), (92784, 92862),
   (92880, 92909), (92928, 92975), (92992, 92995), (93027, 93047), (93053, 93071), (93760, 93823),
   (93952, 94026), (94032, 94032), (94099, 94111), (94176, 94177), (94179, 94179), (94208, 100343),
   (100352, 101589), (101632, 101640), (110576, 110579), (110581, 110587), (110589, 110590), (110592, 110882),
   (110928, 110930), (110948, 110951), (110960, 111355), (113664, 113770), (113776, 113788), (113792, 113800),
   (113808, 113817), (119808, 119892), (119894, 119964), (119966, 119967), (119970, 119970), (119973, 119974),
   (119977, 119980), (119982, 119993), (119995, 119995), (119997, 120003), (120005, 120069), (120071, 120074),
   (120077, 120084), (120086, 120092), (120094, 120121), (120123, 120126), (120128, 120132), (120134, 120134),
   (120138, 120144), (120146, 120485), (120488, 120512), (120514, 120538), (120540, 120570), (120572, 120596),
   (120598, 120628), (120630, 120654), (120656, 120686), (120688, 120712), (120714, 120744), (120746, 120770),
   (120772, 120779), (122624, 122654), (123136, 123180), (123191, 123197), (123214, 123214), (123536, 123565),
   (123584, 123627), (124896, 124902), (124904, 124907), (124909, 124910), (124912, 124926), (124928, 125124),
   (125184, 125251), (125259, 125259), (126464, 126467), (126469, 126495), (126497, 126498), (126500, 126500),
   (126503, 126503), (126505, 126514), (126516, 126519), (126521, 126521), (126523, 126523), (126530, 126530),
   (126535, 126535), (126537, 126537), (126539, 126539), (126541, 126543), (126545, 126546), (126548, 126548),
   (126551, 126551), (126553, 126553), (126555, 126555), (126557, 126557), (126559, 126559), (126561, 126562),
   (126564, 126564), (126567, 126570), (126572, 126578), (126580, 126583), (126585, 126588), (126590, 126590),
   (126592, 126601), (126603, 126619), (126625, 126627), (126629, 126633), (126635, 126651), (131072, 173791),
   (173824, 177976), (177984, 178205), (178208, 183969), (183984, 191456), (194560, 195101), (196608, 201546)]

/-- Models the test `/[\p{L}\d]/u.test text` of the source, per
character: a Unicode letter (general category `L`) or an ASCII digit
(the class `\d` without the `u`-independent extensions is exactly
`[0-9]`). -/
def isLetterOrDigitChar (c : Char) : Bool :=
  letterRanges.any (fun r => r.1 ≤ c.toNat && c.toNat ≤ r.2) || c.isDigit

/-- `isValidString` of the source: the shared eligibility filter for
translatable strings. -/
def isValidString (text : String) : Bool :=
  if utf16Length text < 2 then false
  else if startsWithS text "Ljava/" then false
  else if startsWithS text "(" && containsSub text ")" then false
  else if containsSub text "()V" then false
  else if containsSub text "Exception" then false
  else if startsWithS text "META-INF/" then false
  else text.data.any isLetterOrDigitChar

/-! ### Display escaping (`toJavaUnicode`) and unescaping (`fromJavaUnicode`) -/

/-- Lowercase hexadecimal digit, as produced by `Number.toString 16`. -/
def hexDigitChar (n : Nat) : Char :=
  if n < 10 then Char.ofNat (48 + n) else Char.ofNat (87 + n)

/-- `n.toString(16)` for a natural number: lowercase hexadecimal digits.
The recursion on the quotient is driven by a fuel parameter so that the
definition is structural (hence kernel-evaluable); `n + 1` units of fuel
always suffice. -/
def hexAux : Nat → Nat → List Char
  | 0, _ => []
  | fuel + 1, n =>
    if n < 16 then [hexDigitChar n]
    else hexAux fuel (n / 16) ++ [hexDigitChar (n % 16)]

def hexRepr (n : Nat) : List Char := hexAux (n + 1) n

/-- `code.toString(16).padStart(4, 0)`. -/
def hex4 (n : Nat) : List Char :=
  List.replicate (4 - (hexRepr n).length) '0' ++ hexRepr n

/-- Image of one UTF-16 code unit under `toJavaUnicode`.  The source maps
each code unit: a double quote to `\"`, a backslash to `\\`, a control
character (code `< 32`) to `\u00XX`, anything else passes through raw.
A supplementary character consists of two surrogate code units, both of
which pass through raw and re-join, so per scalar value it also passes
through raw, as modelled here. -/
def toJavaUnicodeChar (c : Char) : List Char :=
  if c = '"' then ['\\', '"']
  else if c = '\\' then ['\\', '\\']
  else if c.toNat < 32 then '\\' :: 'u' :: hex4 c.toNat
  else [c]

/-- `toJavaUnicode` of the source: display escaping for the editor. -/
def toJavaUnicode (s : String) : String :=
  ⟨(s.data.map toJavaUnicodeChar).flatten⟩

/-- Value of a hexadecimal digit character, `none` on a non-hex-digit
(`JSON.parse` accepts both cases in `\uXXXX`). -/
def hexVal (c : Char) : Option Nat :=
  if '0' ≤ c && c ≤ '9' then some (c.toNat - 48)
  else if 'a' ≤ c && c ≤ 'f' then some (c.toNat - 87)
  else if 'A' ≤ c && c ≤ 'F' then some (c.toNat - 55)
  else none

/-- Model of `JSON.parse ("\"" + s + "\"")` on the character list of `s`:
the JSON string-literal body parser.  `none` models a `SyntaxError`: a raw
double quote in `s` terminates the literal early and leaves trailing
garbage, a raw control character or a malformed escape is rejected.
`JSON.parse` keeps a lone surrogate produced by a `\uXXXX` escape as a raw
code unit; since the only consumer of the parsed value re-encodes it with
`TextEncoder` (which turns a lone surrogate into U+FFFD), the model maps
a lone surrogate escape to U+FFFD directly, and a high-low escape pair to
the corresponding supplementary scalar value.

This helper decodes one backslash escape of a JSON string literal: given the
characters following the backslash, yields the decoded scalar value and
the number of characters consumed (at least 1).  `none` models the
`SyntaxError` raised on a malformed escape. -/
def jsonEsc : List Char → Option (Char × Nat)
  | '"' :: _ => some ('"', 1)
  | '\\' :: _ => some ('\\', 1)
  | '/' :: _ => some ('/', 1)
  | 'b' :: _ => some (Char.ofNat 8, 1)
  | 'f' :: _ => some (Char.ofNat 12, 1)
  | 'n' :: _ => some ('\n', 1)
  | 'r' :: _ => some (Char.ofNat 13, 1)
  | 't' :: _ => some ('\t', 1)
  | 'u' :: a :: b :: c :: d :: r =>
    match hexVal a, hexVal b, hexVal c, hexVal d with
    | some ha, some hb, some hc, some hd =>
      let n := ((ha * 16 + hb) * 16 + hc) * 16 + hd
      if 0xD800 ≤ n && n ≤ 0xDBFF then
        match r with
        | '\\' :: 'u' :: e :: f :: g :: h :: _ =>
          (match hexVal e, hexVal f, hexVal g, hexVal h with
           | some he, some hf, some hg, some hh =>
             let m := ((he * 16 + hf) * 16 + hg) * 16 + hh
             if 0xDC00 ≤ m && m ≤ 0xDFFF then
               some (Char.ofNat (0x10000 + (n - 0xD800) * 1024 + (m - 0xDC00)), 11)
             else some (fffd, 5)
           | _, _, _, _ => some (fffd, 5))
        | _ => some (fffd, 5)
      else if 0xDC00 ≤ n && n ≤ 0xDFFF then some (fffd, 5)
      else some (Char.ofNat n, 5)
    | _, _, _, _ => none
  | _ => none

/-- Fuel-driven body of the JSON string-literal parser (each step
consumes at least one character, so `l.length + 1` units of fuel always
suffice and the out-of-fuel branch is unreachable from `jsonStr`). -/
def jsonStrAux : Nat → List Char → Option (List Char)
  | 0, _ => none
  | _ + 1, [] => some []
  | _ + 1, '"' :: _ => none
  | fuel + 1, '\\' :: rest =>
    match jsonEsc rest with
    | none => none
    | some (c, k) => (jsonStrAux fuel (rest.drop k)).map (fun l => c :: l)
  | fuel + 1, c :: rest =>
    if c.toNat < 0x20 then none
    else (jsonStrAux fuel rest).map (fun l => c :: l)

def jsonStr (l : List Char) : Option (List Char) := jsonStrAux (l.length + 1) l

/-- `fromJavaUnicode` of the source: `JSON.parse` of the quoted text, with
the `catch` falling back to the unmodified input. -/
def fromJavaUnicode (s : String) : String :=
  match jsonStr s.data with
  | some l => ⟨l⟩
  | none => s

/-! ### Decimal rendering and parsing of stableIds -/

/-- Decimal digit character. -/
def digitChar (n : Nat) : Char := Char.ofNat (48 + n)

/-- Decimal representation of a natural number, as produced by the
template interpolation of a JavaScript integer (fuel-driven structural
recursion; `n + 1` units of fuel always suffice). -/
def decimalAux : Nat → Nat → List Char
  | 0, _ => []
  | fuel + 1, n =>
    if n < 10 then [digitChar n]
    else decimalAux fuel (n / 10) ++ [digitChar (n % 10)]

def decimalRepr (n : Nat) : List Char := decimalAux (n + 1) n

def decimalStr (n : Nat) : String := ⟨decimalRepr n⟩

/-- Value of a list of decimal digit characters; models
`parseInt(digits, 10)` on a non-empty all-digit string.  (Digit strings
are modelled with exact naturals; JavaScript would lose precision only
beyond 2^53.) -/
def digitsVal (l : List Char) : Nat :=
  l.foldl (fun acc c => acc * 10 + (c.toNat - 48)) 0

/-! ### Line splitting and the two line patterns -/

/-- `text.split("\n")` on the character list. -/
def splitLinesL : List Char → List (List Char)
  | [] => [[]]
  | c :: rest =>
    match splitLinesL rest with
    | [] => [[c]]
    | h :: t => if c = '\n' then [] :: h :: t else (c :: h) :: t

/-- The set matched by the regex class `\s` (no `u` flag). -/
def isJsSpace (c : Char) : Bool :=
  c = ' ' || c = '\t' || c = '\n' || c.toNat = 0x0B || c.toNat = 0x0C ||
  c = Char.ofNat 13 || c.toNat = 0xA0 || c.toNat = 0x1680 ||
  (0x2000 ≤ c.toNat && c.toNat ≤ 0x200A) || c.toNat = 0x2028 ||
  c.toNat = 0x2029 || c.toNat = 0x202F || c.toNat = 0x205F ||
  c.toNat = 0x3000 || c.toNat = 0xFEFF

/-- Matches the tail `"((?:[^"\\]|\\.)*)"` of both line regexes, starting
just after the opening quote: the captured value is every character up to
the first unescaped double quote, a backslash always consuming the
following character; fails if the line ends before an unescaped closing
quote.  (The regex engine backtracking is deterministic here: no
alternative of the starred group can match an unescaped quote, so the
star is forced at every position.)  Returns the captured value (still in
escaped form) and the characters after the closing quote. -/
def scanValue : List Char → Option (List Char × List Char)
  | [] => none
  | '"' :: rest => some ([], rest)
  | '\\' :: c :: rest =>
    (scanValue rest).map (fun p => ('\\' :: c :: p.1, p.2))
  | '\\' :: [] => none
  | c :: rest => (scanValue rest).map (fun p => (c :: p.1, p.2))

/-- Attempts the assembler edit regex `str_(\d+)\s*=\s*"((?:[^"\\]|\\.)*)"`
at the head of the character list; yields the two capture groups. -/
def matchCfgAt (l : List Char) : Option (List Char × List Char) :=
  match l with
  | 's' :: 't' :: 'r' :: '_' :: rest =>
    let ds := rest.takeWhile Char.isDigit
    if ds.isEmpty then none
    else
      match (rest.dropWhile Char.isDigit).dropWhile isJsSpace with
      | '=' :: r1 =>
        match r1.dropWhile isJsSpace with
        | '"' :: r2 => (scanValue r2).map (fun p => (ds, p.1))
        | _ => none
      | _ => none
  | _ => none

/-- `line.match` with the edit regex: the regex engine tries successive
start positions left to right and returns the first match. -/
def findCfg : List Char → Option (List Char × List Char)
  | [] => none
  | c :: rest =>
    match matchCfgAt (c :: rest) with
    | some r => some r
    | none => findCfg rest

/-- Attempts the reference-view regex
`str_\s*(\d+)\s*\|\s*"((?:[^"\\]|\\.)*)"` at the head of the list. -/
def matchRefAt (l : List Char) : Option (List Char × List Char) :=
  match l with
  | 's' :: 't' :: 'r' :: '_' :: rest =>
    let r0 := rest.dropWhile isJsSpace
    let ds := r0.takeWhile Char.isDigit
    if ds.isEmpty then none
    else
      match (r0.dropWhile Char.isDigit).dropWhile isJsSpace with
      | '|' :: r1 =>
        match r1.dropWhile isJsSpace with
        | '"' :: r2 => (scanValue r2).map (fun p => (ds, p.1))
        | _ => none
      | _ => none
  | _ => none

/-- `line.match` with the reference regex (first match in the line). -/
def findRef : List Char → Option (List Char × List Char)
  | [] => none
  | c :: rest =>
    match matchRefAt (c :: rest) with
    | some r => some r
    | none => findRef rest

/-! ### The edit set (`replacements` map) -/

/-- The `replacements` map built by `assembleClassFile` from the editor
text: each line is matched against the edit regex and, on a match, the id
is bound to the unescaped value.  `Map.set` overwrites, so a later line
with the same id wins; the map is modelled as the chronological list of
bindings, looked up from the newest end by `mapGet`. -/
def parseReplacements (t : String) : List (Nat × String) :=
  (splitLinesL t.data).foldl
    (fun m line =>
      match findCfg line with
      | some (ds, v) => m ++ [(digitsVal ds, fromJavaUnicode ⟨v⟩)]
      | none => m)
    []

/-- `Map.get`: the most recently set binding for the key. -/
def mapGet (m : List (Nat × String)) (k : Nat) : Option String :=
  match m.reverse.find? (fun p => p.1 = k) with
  | some p => some p.2
  | none => none

/-! ### Output headers -/

/-- The three-line comment header plus blank line emitted by
`extractStringsFromClass` and `convertReferenceToConfig`. -/
def cfgHeader (fileName : String) : String :=
  "# Translation File: " ++ fileName ++
  "\n# Only edit text inside quotes \"...\"\n# Format: str_ID = \"Value\"\n\n"

/-- The three-line comment header emitted by `extractReadableStrings`
(no blank line follows it). -/
def refHeader : String :=
  "# RAW CONSTANT POOL (REFERENCE ONLY)\n# ID    | Value (UTF-8)\n# ------|--------------------------\n"

/-- `stringIndex.toString().padStart(5, " ")`. -/
def padStart5 (l : List Char) : List Char :=
  List.replicate (5 - l.length) ' ' ++ l

/-- One output line of the config projection. -/
def cfgLine (si : Nat) (text : String) : String :=
  "str_" ++ decimalStr si ++ " = \"" ++ toJavaUnicode text ++ "\"\n"

/-- One output line of the reference projection. -/
def refLine (si : Nat) (text : String) : String :=
  "str_" ++ ⟨padStart5 (decimalRepr si)⟩ ++ " | \"" ++ toJavaUnicode text ++ "\"\n"

/-- `convertReferenceToConfig` of the source: re-synthesizes the header,
then for each line of the reference text that matches the reference
regex emits `str_<digits> = "<value>"` (digits and value copied verbatim
from the captures); non-matching lines are dropped. -/
def convertReferenceToConfig (referenceText fileName : String) : String :=
  (splitLinesL referenceText.data).foldl
    (fun output line =>
      match findRef line with
      | some (ds, v) => output ++ "str_" ++ ⟨ds⟩ ++ " = \"" ++ ⟨v⟩ ++ "\"\n"
      | none => output)
    (cfgHeader fileName)

/-! ### Constant pool tags and entry sizes -/

/-- Payload size of a non-Utf8 constant pool entry, together with a flag
for the Long/Double tags that consume a second index slot (`i++` in the
source loops).  `none` for a tag outside the recognized set.  This models
the `switch` statement that the source duplicates in
`extractStringsFromClass`, `extractReadableStrings` and
`assembleClassFile`; the three copies list identical tag-to-size cases
and differ only in their `default` behaviour, which stays in the
respective loop definitions below. -/
def tagSize : Nat → Option (Nat × Bool)
  | 3 | 4 | 9 | 10 | 11 | 12 | 17 | 18 => some (4, false)
  | 5 | 6 => some (8, true)
  | 7 | 8 | 16 | 19 | 20 => some (2, false)
  | 15 => some (3, false)
  | _ => none

/-- Error string returned by `extractStringsFromClass` on an
unrecognized tag (`off` is the offset just past the tag byte, the value
of the `offset` variable at the point of the `return`). -/
def unknownTagMsg (tag off : Nat) : String :=
  "# ERROR: Unknown Constant Pool Tag " ++ decimalStr tag ++
  " at offset " ++ decimalStr off

/-- Error string returned by `extractStringsFromClass` on a bad magic. -/
def invalidMagicMsg : String :=
  "# ERROR: Not a valid Java Class File (Missing Magic Header)"

/-- JavaScript exceptions escaping `extractStringsFromClass` and
`extractReadableStrings`: only the `RangeError` of an out-of-bounds
`DataView` read (these functions report format errors by returning
error-marker strings, not by throwing). -/
inductive JsErr where
  | rangeError
deriving DecidableEq

/-- JavaScript exceptions escaping `assembleClassFile`:
`Error("Invalid Magic Header")`, `Error("Unknown Tag ... during
assembly")`, or a `RangeError` from an out-of-bounds `DataView` read. -/
inductive AsmErr where
  | invalidMagic
  | unknownTag (tag : Nat)
  | rangeError
deriving DecidableEq

/-! ### The extraction loop (`extractStringsFromClass`) -/

/-- The constant pool loop of `extractStringsFromClass`.  The source
iterates `for (i = 1; i < cpCount; i++)` with an extra `i++` for
Long/Double; the loop is encoded here by structural recursion on the
number of remaining index slots (`cpCount - i`, so the top level passes
`cpCount - 1`), which a Long/Double entry consumes two of.  State:
buffer offset `off` (start of the current entry), next stableId `si`,
and the output accumulated so far.  Mirrors the source: a Utf8 entry is
decoded and, when eligible, rendered with the next sequential stableId;
other recognized tags are skipped by their size; an unrecognized tag
returns the error-marker string (discarding the accumulated output); an
out-of-bounds read throws. -/
def extractLoop (B : List Nat) : Nat → Nat → Nat → String → Except JsErr String
  | 0, _, _, acc => .ok acc
  | slots + 1, off, si, acc =>
    match getUint8 B off with
    | none => .error .rangeError
    | some tag =>
      if tag = 1 then
        match getUint16 B (off + 1) with
        | none => .error .rangeError
        | some len =>
          let bytes := sliceBytes B (off + 3) len
          let text := utf8Decode bytes
          if isValidString text then
            extractLoop B slots (off + 3 + len) (si + 1) (acc ++ cfgLine si text)
          else
            extractLoop B slots (off + 3 + len) si acc
      else
        match tagSize tag with
        | some (sz, wide) =>
          if wide then
            match slots with
            | 0 => .ok acc
            | slots' + 1 => extractLoop B slots' (off + 1 + sz) si acc
          else extractLoop B slots (off + 1 + sz) si acc
        | none => .ok (unknownTagMsg tag (off + 1))

/-- `extractStringsFromClass` of the source.  The returned string is the
config-format text; the magic-header failure and the unknown-tag failure
are reported in-band as error-marker strings (`invalidMagicMsg`,
`unknownTagMsg`), while a truncated buffer raises a `RangeError`. -/
def extractStringsFromClass (B : List Nat) (fileName : String) :
    Except JsErr String :=
  match getUint32 B 0 with
  | none => .error .rangeError
  | some magic =>
    if magic ≠ 0xCAFEBABE then .ok invalidMagicMsg
    else
      match getUint16 B 8 with
      | none => .error .rangeError
      | some cp => extractLoop B (cp - 1) 10 0 (cfgHeader fileName)

/-! ### The readable-reference loop (`extractReadableStrings`) -/

/-- The constant pool loop of `extractReadableStrings`.  Identical to
`extractLoop` except for the rendered line format and for the `switch`
that skips non-Utf8 entries: its copy in this function has no `default`
case, so on an unrecognized tag the offset is not advanced past the tag
byte and the loop simply continues with the next pool index, re-reading
the following byte as a tag. -/
def readableLoop (B : List Nat) : Nat → Nat → Nat → String → Except JsErr String
  | 0, _, _, acc => .ok acc
  | slots + 1, off, si, acc =>
    match getUint8 B off with
    | none => .error .rangeError
    | some tag =>
      if tag = 1 then
        match getUint16 B (off + 1) with
        | none => .error .rangeError
        | some len =>
          let bytes := sliceBytes B (off + 3) len
          let text := utf8Decode bytes
          if isValidString text then
            readableLoop B slots (off + 3 + len) (si + 1) (acc ++ refLine si text)
          else
            readableLoop B slots (off + 3 + len) si acc
      else
        match tagSize tag with
        | some (sz, wide) =>
          if wide then
            match slots with
            | 0 => .ok acc
            | slots' + 1 => readableLoop B slots' (off + 1 + sz) si acc
          else readableLoop B slots (off + 1 + sz) si acc
        | none => readableLoop B slots (off + 1) si acc

/-- `extractReadableStrings` of the source (reference view).  A bad magic
is reported by returning `"# Invalid Class File"`. -/
def extractReadableStrings (B : List Nat) : Except JsErr String :=
  match getUint32 B 0 with
  | none => .error .rangeError
  | some magic =>
    if magic ≠ 0xCAFEBABE then .ok "# Invalid Class File"
    else
      match getUint16 B 8 with
      | none => .error .rangeError
      | some cp => readableLoop B (cp - 1) 10 0 refHeader

/-! ### The assembly loop (`assembleClassFile`) -/

/-- The constant pool rebuild loop of `assembleClassFile`.  Mirrors the
source: the tag byte is re-written (`writeU1`, masking with `& 0xFF`);
a Utf8 entry that is eligible and whose sequential stableId is bound in
the replacements map is re-encoded with a fresh length field; any other
Utf8 entry is copied (the length field rewritten from the byte count of
the possibly clamped slice); other recognized tags are copied by their
size; an unrecognized tag throws.  Returns the accumulated bytes and the
final offset, from which the caller copies the rest of the file. -/
def assembleLoop (B : List Nat) (repl : List (Nat × String)) :
    Nat → Nat → Nat → List Nat → Except AsmErr (List Nat × Nat)
  | 0, off, _, acc => .ok (acc, off)
  | slots + 1, off, si, acc =>
    match getUint8 B off with
    | none => .error .rangeError
    | some tag =>
      if tag = 1 then
        match getUint16 B (off + 1) with
        | none => .error .rangeError
        | some len =>
          let raw := sliceBytes B (off + 3) len
          let text := utf8Decode raw
          if isValidString text then
            match mapGet repl si with
            | some newText =>
              let nb := utf8Encode newText
              assembleLoop B repl slots (off + 3 + len) (si + 1)
                (acc ++ tag % 256 :: (writeU2bytes nb.length ++ nb))
            | none =>
              assembleLoop B repl slots (off + 3 + len) (si + 1)
                (acc ++ tag % 256 :: (writeU2bytes raw.length ++ raw))
          else
            assembleLoop B repl slots (off + 3 + len) si
              (acc ++ tag % 256 :: (writeU2bytes raw.length ++ raw))
      else
        match tagSize tag with
        | some (sz, wide) =>
          if wide then
            match slots with
            | 0 => .ok (acc ++ tag % 256 :: sliceBytes B (off + 1) sz, off + 1 + sz)
            | slots' + 1 =>
              assembleLoop B repl slots' (off + 1 + sz) si
                (acc ++ tag % 256 :: sliceBytes B (off + 1) sz)
          else
            assembleLoop B repl slots (off + 1 + sz) si
              (acc ++ tag % 256 :: sliceBytes B (off + 1) sz)
        | none => .error (.unknownTag tag)

/-- `assembleClassFile` of the source: parses the replacements map from
the editor text, checks the magic, copies the 8-byte header and the
pool-count field, rebuilds the pool, and appends every byte after the
pool verbatim. -/
def assembleClassFile (B : List Nat) (editorText : String) :
    Except AsmErr (List Nat) :=
  let repl := parseReplacements editorText
  match getUint32 B 0 with
  | none => .error .rangeError
  | some magic =>
    if magic ≠ 0xCAFEBABE then .error .invalidMagic
    else
      match getUint16 B 8 with
      | none => .error .rangeError
      | some cp =>
        match assembleLoop B repl (cp - 1) 10 0 (B.take 8 ++ writeU2bytes cp) with
        | .ok (acc, off) => .ok (acc ++ B.drop off)
        | .error e => .error e

/-! ### A single constant-pool walk

The source duplicates one and the same pool traversal in its extraction
and assembly passes.  `poolWalk` captures that traversal once, as the
ordered list of entries visited together with the final offset; the
refinement lemmas below prove that `extractLoop` and `assembleLoop` are
both images of this single walk, which is the stableId-stability
invariant of the design. -/

/-- One visited constant pool entry: offset of the tag byte, and for a
Utf8 entry the declared length and the (possibly clamped) payload slice,
for any other recognized tag the tag and its payload slice. -/
inductive PoolEnt where
  | utf8 (off len : Nat) (payload : List Nat)
  | other (off tag : Nat) (payload : List Nat)
deriving DecidableEq

/-- Failure of the pool walk: an out-of-bounds read, or an unrecognized
tag (with the offset just past the tag byte). -/
inductive WalkErr where
  | rangeErr
  | unknownTag (tag off : Nat)
deriving DecidableEq

/-- The common constant-pool traversal of the source loops, by
structural recursion on the remaining index slots (like the loops). -/
def poolWalk (B : List Nat) : Nat → Nat → Except WalkErr (List PoolEnt × Nat)
  | 0, off => .ok ([], off)
  | slots + 1, off =>
    match getUint8 B off with
    | none => .error .rangeErr
    | some tag =>
      if tag = 1 then
        match getUint16 B (off + 1) with
        | none => .error .rangeErr
        | some len =>
          match poolWalk B slots (off + 3 + len) with
          | .ok (es, fin) =>
              .ok (.utf8 off len (sliceBytes B (off + 3) len) :: es, fin)
          | .error e => .error e
      else
        match tagSize tag with
        | some (sz, wide) =>
          if wide then
            match slots with
            | 0 => .ok ([.other off tag (sliceBytes B (off + 1) sz)], off + 1 + sz)
            | slots' + 1 =>
              match poolWalk B slots' (off + 1 + sz) with
              | .ok (es, fin) =>
                  .ok (.other off tag (sliceBytes B (off + 1) sz) :: es, fin)
              | .error e => .error e
          else
            match poolWalk B slots (off + 1 + sz) with
            | .ok (es, fin) =>
                .ok (.other off tag (sliceBytes B (off + 1) sz) :: es, fin)
            | .error e => .error e
        | none => .error (.unknownTag tag (off + 1))

/-- Eligibility of a visited entry: a Utf8 entry whose decoded payload
passes `isValidString`. -/
def PoolEnt.elig : PoolEnt → Bool
  | .utf8 _ _ p => isValidString (utf8Decode p)
  | .other _ _ _ => false

/-- Decoded text of a visited Utf8 entry. -/
def PoolEnt.text : PoolEnt → String
  | .utf8 _ _ p => utf8Decode p
  | .other _ _ _ => ""

/-- Config-projection rendering of the walk: one `cfgLine` per eligible
entry, numbered sequentially from `si`. -/
def cfgLinesOf : List PoolEnt → Nat → String
  | [], _ => ""
  | e :: es, si =>
    if e.elig then cfgLine si e.text ++ cfgLinesOf es (si + 1)
    else cfgLinesOf es si

/-- Reference-projection rendering of the walk. -/
def refLinesOf : List PoolEnt → Nat → String
  | [], _ => ""
  | e :: es, si =>
    if e.elig then refLine si e.text ++ refLinesOf es (si + 1)
    else refLinesOf es si

/-- Number of eligible entries (stableIds consumed) in a walk segment. -/
def eligCount (es : List PoolEnt) : Nat := (es.filter PoolEnt.elig).length

/-- Decoded texts of the eligible entries, in walk order. -/
def eligTexts (es : List PoolEnt) : List String :=
  (es.filter PoolEnt.elig).map PoolEnt.text

/-- Bytes emitted by the assembly pass for one walk segment, starting at
stableId `si` with replacements map `repl`. -/
def asmBytesOf (repl : List (Nat × String)) : List PoolEnt → Nat → List Nat
  | [], _ => []
  | .utf8 _ _ p :: es, si =>
    if isValidString (utf8Decode p) then
      (match mapGet repl si with
       | some newText =>
         1 :: (writeU2bytes (utf8Encode newText).length ++ utf8Encode newText)
       | none => 1 :: (writeU2bytes p.length ++ p)) ++ asmBytesOf repl es (si + 1)
    else (1 :: (writeU2bytes p.length ++ p)) ++ asmBytesOf repl es si
  | .other _ tag p :: es, si =>
    (tag % 256 :: p) ++ asmBytesOf repl es si

/-- The original bytes of one visited entry (using the declared length
for the Utf8 length field). -/
def origBytes : PoolEnt → List Nat
  | .utf8 _ len p => 1 :: (writeU2bytes len ++ p)
  | .other _ tag p => tag :: p

/-! ### Refinement: the source loops are images of the single walk -/

/-- Result of `extractLoop` as determined by the walk. -/
def extractRes (acc : String) (si : Nat) :
    Except WalkErr (List PoolEnt × Nat) → Except JsErr String
  | .error .rangeErr => .error .rangeError
  | .error (.unknownTag t o) => .ok (unknownTagMsg t o)
  | .ok (es, _) => .ok (acc ++ cfgLinesOf es si)

/-- Result of `assembleLoop` as determined by the walk. -/
def asmRes (repl : List (Nat × String)) (acc : List Nat) (si : Nat) :
    Except WalkErr (List PoolEnt × Nat) → Except AsmErr (List Nat × Nat)
  | .error .rangeErr => .error .rangeError
  | .error (.unknownTag t _) => .error (.unknownTag t)
  | .ok (es, fin) => .ok (acc ++ asmBytesOf repl es si, fin)

/-- The extraction loop is the config rendering of the single walk. -/
theorem extractLoop_eq_walk (B : List Nat) : ∀ slots off si acc,
    extractLoop B slots off si acc = extractRes acc si (poolWalk B slots off) := by
  intro slots off si acc
  induction slots, off, si, acc using extractLoop.induct B with
  | case1 off si acc =>
    simp [extractLoop, poolWalk, extractRes, cfgLinesOf]
  | case2 slots off si acc hnone =>
    rw [extractLoop, poolWalk]
    simp [hnone, extractRes]
  | case3 slots off si acc h16 h8 =>
    rw [extractLoop, poolWalk]
    simp [h8, h16, extractRes]
  | case4 slots off si acc len h16 _bytes _text helig h8 ih =>
    rw [extractLoop, poolWalk]
    cases hw : poolWalk B slots (off + 3 + len) with
    | ok p =>
      obtain ⟨es, fin⟩ := p
      rw [hw] at ih
      simp [h8, h16, helig, ih, hw, extractRes, cfgLinesOf, PoolEnt.elig,
        PoolEnt.text, String.append_assoc]
    | error e =>
      rw [hw] at ih
      cases e <;> simp [h8, h16, helig, ih, hw, extractRes]
  | case5 slots off si acc len h16 _bytes _text helig h8 ih =>
    rw [extractLoop, poolWalk]
    simp only [Bool.not_eq_true] at helig
    cases hw : poolWalk B slots (off + 3 + len) with
    | ok p =>
      obtain ⟨es, fin⟩ := p
      rw [hw] at ih
      simp [h8, h16, helig, ih, hw, extractRes, cfgLinesOf, PoolEnt.elig,
        PoolEnt.text]
    | error e =>
      rw [hw] at ih
      cases e <;> simp [h8, h16, helig, ih, hw, extractRes]
  | case6 off si acc tag h8 hne sz hsz =>
    rw [extractLoop, poolWalk]
    simp [h8, hne, hsz, extractRes, cfgLinesOf, PoolEnt.elig]
  | case7 off si acc tag h8 hne sz slots' hsz ih =>
    rw [extractLoop, poolWalk]
    cases hw : poolWalk B slots' (off + 1 + sz) with
    | ok p =>
      obtain ⟨es, fin⟩ := p
      rw [hw] at ih
      simp [h8, hne, hsz, ih, hw, extractRes, cfgLinesOf, PoolEnt.elig]
    | error e =>
      rw [hw] at ih
      cases e <;> simp [h8, hne, hsz, ih, hw, extractRes]
  | case8 slots off si acc tag h8 hne sz wide hsz hnw ih =>
    rw [extractLoop, poolWalk]
    simp only [Bool.not_eq_true] at hnw
    cases hw : poolWalk B slots (off + 1 + sz) with
    | ok p =>
      obtain ⟨es, fin⟩ := p
      rw [hw] at ih
      simp [h8, hne, hsz, hnw, ih, hw, extractRes, cfgLinesOf, PoolEnt.elig]
    | error e =>
      rw [hw] at ih
      cases e <;> simp [h8, hne, hsz, hnw, ih, hw, extractRes]
  | case9 slots off si acc tag h8 hne hsz =>
    rw [extractLoop, poolWalk]
    simp [h8, hne, hsz, extractRes]

/-- The assembly loop is the byte rendering of the single walk. -/
theorem assembleLoop_eq_walk (B : List Nat) (repl : List (Nat × String)) :
    ∀ slots off si acc,
    assembleLoop B repl slots off si acc =
      asmRes repl acc si (poolWalk B slots off) := by
  intro slots off si acc
  induction slots, off, si, acc using assembleLoop.induct B repl with
  | case1 off si acc =>
    simp [assembleLoop, poolWalk, asmRes, asmBytesOf]
  | case2 slots off si acc hnone =>
    rw [assembleLoop, poolWalk]
    simp [hnone, asmRes]
  | case3 slots off si acc h16 h8 =>
    rw [assembleLoop, poolWalk]
    simp [h8, h16, asmRes]
  | case4 slots off si acc len h16 _raw _text helig newText hm _nb h8 ih =>
    rw [assembleLoop, poolWalk]
    cases hw : poolWalk B slots (off + 3 + len) with
    | ok p =>
      obtain ⟨es, fin⟩ := p
      rw [hw] at ih
      simp [h8, h16, helig, hm, ih, hw, asmRes, asmBytesOf, PoolEnt.elig,
        List.append_assoc]
    | error e =>
      rw [hw] at ih
      cases e <;> simp [h8, h16, helig, hm, ih, hw, asmRes]
  | case5 slots off si acc len h16 _raw _text helig hm h8 ih =>
    rw [assembleLoop, poolWalk]
    cases hw : poolWalk B slots (off + 3 + len) with
    | ok p =>
      obtain ⟨es, fin⟩ := p
      rw [hw] at ih
      simp [h8, h16, helig, hm, ih, hw, asmRes, asmBytesOf, PoolEnt.elig,
        List.append_assoc]
    | error e =>
      rw [hw] at ih
      cases e <;> simp [h8, h16, helig, hm, ih, hw, asmRes]
  | case6 slots off si acc len h16 _raw _text helig h8 ih =>
    rw [assembleLoop, poolWalk]
    simp only [Bool.not_eq_true] at helig
    cases hw : poolWalk B slots (off + 3 + len) with
    | ok p =>
      obtain ⟨es, fin⟩ := p
      rw [hw] at ih
      simp [h8, h16, helig, ih, hw, asmRes, asmBytesOf, PoolEnt.elig,
        List.append_assoc]
    | error e =>
      rw [hw] at ih
      cases e <;> simp [h8, h16, helig, ih, hw, asmRes]
  | case7 off si acc tag h8 hne sz hsz =>
    rw [assembleLoop, poolWalk]
    simp [h8, hne, hsz, asmRes, asmBytesOf]
  | case8 off si acc tag h8 hne sz slots' hsz ih =>
    rw [assembleLoop, poolWalk]
    cases hw : poolWalk B slots' (off + 1 + sz) with
    | ok p =>
      obtain ⟨es, fin⟩ := p
      rw [hw] at ih
      simp [h8, hne, hsz, ih, hw, asmRes, asmBytesOf, List.append_assoc]
    | error e =>
      rw [hw] at ih
      cases e <;> simp [h8, hne, hsz, ih, hw, asmRes]
  | case9 slots off si acc tag h8 hne sz wide hsz hnw ih =>
    rw [assembleLoop, poolWalk]
    simp only [Bool.not_eq_true] at hnw
    cases hw : poolWalk B slots (off + 1 + sz) with
    | ok p =>
      obtain ⟨es, fin⟩ := p
      rw [hw] at ih
      simp [h8, hne, hsz, hnw, ih, hw, asmRes, asmBytesOf, List.append_assoc]
    | error e =>
      rw [hw] at ih
      cases e <;> simp [h8, hne, hsz, hnw, ih, hw, asmRes]
  | case10 slots off si acc tag h8 hne hsz =>
    rw [assembleLoop, poolWalk]
    simp [h8, hne, hsz, asmRes]

/-- On a buffer whose pool walks cleanly (the only situation in which the
readable pass agrees with the other two, since its unknown-tag behaviour
differs), the readable loop is the reference rendering of the walk. -/
theorem readableLoop_eq_walk (B : List Nat) : ∀ slots off si acc es fin,
    poolWalk B slots off = .ok (es, fin) →
    readableLoop B slots off si acc = .ok (acc ++ refLinesOf es si) := by
  intro slots off
  induction slots, off using poolWalk.induct B with
  | case1 off =>
    intro si acc es fin hww
    rw [poolWalk] at hww
    simp only [Except.ok.injEq, Prod.mk.injEq] at hww
    obtain ⟨hes, hfin⟩ := hww
    subst hes
    simp [readableLoop, refLinesOf]
  | case2 slots off hnone =>
    intro si acc es fin hww
    rw [poolWalk] at hww
    simp [hnone] at hww
  | case3 slots off h16 h8 =>
    intro si acc es fin hww
    rw [poolWalk] at hww
    simp [h8, h16] at hww
  | case4 slots off len h16 es0 fin0 hw h8 ih =>
    intro si acc es fin hww
    rw [poolWalk] at hww
    simp only [h8, h16, hw, if_pos, ite_true, Except.ok.injEq,
      Prod.mk.injEq] at hww
    obtain ⟨hes, hfin⟩ := hww
    subst hes
    subst hfin
    rw [readableLoop]
    by_cases helig : isValidString (utf8Decode (sliceBytes B (off + 3) len)) = true
    · simp [h8, h16, helig, ih _ _ _ _ hw, refLinesOf, PoolEnt.elig,
        PoolEnt.text, String.append_assoc]
    · simp only [Bool.not_eq_true] at helig
      simp [h8, h16, helig, ih _ _ _ _ hw, refLinesOf, PoolEnt.elig,
        PoolEnt.text]
  | case5 slots off len h16 e hw h8 ih =>
    intro si acc es fin hww
    rw [poolWalk] at hww
    simp [h8, h16, hw] at hww
  | case6 off tag h8 hne sz hsz =>
    intro si acc es fin hww
    rw [poolWalk] at hww
    simp [h8, hne, hsz, Except.ok.injEq, Prod.mk.injEq] at hww
    obtain ⟨hes, hfin⟩ := hww
    subst hes
    subst hfin
    rw [readableLoop]
    simp [h8, hne, hsz, readableLoop, refLinesOf, PoolEnt.elig]
  | case7 off tag h8 hne sz slots' es0 fin0 hw hsz ih =>
    intro si acc es fin hww
    rw [poolWalk] at hww
    simp [h8, hne, hsz, hw, Except.ok.injEq, Prod.mk.injEq] at hww
    obtain ⟨hes, hfin⟩ := hww
    subst hes
    subst hfin
    rw [readableLoop]
    simp [h8, hne, hsz, ih _ _ _ _ hw, refLinesOf, PoolEnt.elig]
  | case8 off tag h8 hne sz slots' e hw hsz ih =>
    intro si acc es fin hww
    rw [poolWalk] at hww
    simp [h8, hne, hsz, hw] at hww
  | case9 slots off tag h8 hne sz wide hsz hnw es0 fin0 hw ih =>
    intro si acc es fin hww
    rw [poolWalk] at hww
    simp only [Bool.not_eq_true] at hnw
    simp only [h8, hne, hsz, hnw, hw, if_neg, ite_false, Bool.false_eq_true,
      Except.ok.injEq, Prod.mk.injEq] at hww
    obtain ⟨hes, hfin⟩ := hww
    subst hes
    subst hfin
    rw [readableLoop]
    simp [h8, hne, hsz, hnw, ih _ _ _ _ hw, refLinesOf, PoolEnt.elig]
  | case10 slots off tag h8 hne sz wide hsz hnw e hw ih =>
    intro si acc es fin hww
    rw [poolWalk] at hww
    simp only [Bool.not_eq_true] at hnw
    simp [h8, hne, hsz, hnw, hw] at hww
  | case11 slots off tag h8 hne hsz =>
    intro si acc es fin hww
    rw [poolWalk] at hww
    simp [h8, hne, hsz] at hww


/-- Top-level form of the extraction pass on a buffer with a good magic. -/
theorem extractStringsFromClass_eq_walk (B : List Nat) (name : String)
    (cp : Nat) (hm : getUint32 B 0 = some 0xCAFEBABE)
    (hcp : getUint16 B 8 = some cp) :
    extractStringsFromClass B name =
      extractRes (cfgHeader name) 0 (poolWalk B (cp - 1) 10) := by
  unfold extractStringsFromClass
  rw [hm, hcp]
  simp [extractLoop_eq_walk]

/-- Top-level form of the readable pass on a buffer with a good magic and
a cleanly walking pool. -/
theorem extractReadableStrings_eq_walk (B : List Nat) (cp : Nat)
    (es : List PoolEnt) (fin : Nat) (hm : getUint32 B 0 = some 0xCAFEBABE)
    (hcp : getUint16 B 8 = some cp)
    (hw : poolWalk B (cp - 1) 10 = .ok (es, fin)) :
    extractReadableStrings B = .ok (refHeader ++ refLinesOf es 0) := by
  unfold extractReadableStrings
  rw [hm, hcp]
  simp [readableLoop_eq_walk B (cp - 1) 10 0 refHeader es fin hw]

/-- Top-level form of the assembly pass on a buffer with a good magic. -/
theorem assembleClassFile_eq_walk (B : List Nat) (t : String) (cp : Nat)
    (hm : getUint32 B 0 = some 0xCAFEBABE) (hcp : getUint16 B 8 = some cp) :
    assembleClassFile B t =
      match asmRes (parseReplacements t) (B.take 8 ++ writeU2bytes cp) 0
          (poolWalk B (cp - 1) 10) with
      | .ok (acc, off) => .ok (acc ++ B.drop off)
      | .error e => .error e := by
  unfold assembleClassFile
  rw [hm, hcp]
  simp [assembleLoop_eq_walk]

/-! ### Concrete example buffers -/

/-- The minimal valid class file of the specification scenario: magic,
version 0.52, pool count 3, one Utf8 entry `"OK"`, one Integer entry
with payload 42, and two trailing bytes after the pool. -/
def sampleClass : List Nat :=
  [0xCA, 0xFE, 0xBA, 0xBE, 0, 0, 0, 0x34, 0, 3,
   1, 0, 2, 0x4F, 0x4B,
   3, 0, 0, 0, 0x2A,
   0xDE, 0xAD]

/-- A buffer with a good magic, pool count 2 and a single pool entry
whose tag byte 2 is outside the recognized set. -/
def unknownTagBuf : List Nat :=
  [0xCA, 0xFE, 0xBA, 0xBE, 0, 0, 0, 0, 0, 2, 2]

/-- A valid class file (good magic, well-formed pool, recognized tags)
whose single Utf8 entry carries the bytes `41 42 C0 80`: the modified
UTF-8 encoding of `"AB\u0000"` used by real class files, which is not
valid standard UTF-8. -/
def invalidUtf8Buf : List Nat :=
  [0xCA, 0xFE, 0xBA, 0xBE, 0, 0, 0, 0, 0, 2,
   1, 0, 4, 0x41, 0x42, 0xC0, 0x80]

/-- A valid class file whose pool holds a Utf8 entry
`"Ljava/lang/String;"` followed by a Utf8 entry `"Hello World"`. -/
def filterDemoBuf : List Nat :=
  [0xCA, 0xFE, 0xBA, 0xBE, 0, 0, 0, 0x34, 0, 3,
   1, 0, 18, 0x4C, 0x6A, 0x61, 0x76, 0x61, 0x2F, 0x6C, 0x61, 0x6E, 0x67,
   0x2F, 0x53, 0x74, 0x72, 0x69, 0x6E, 0x67, 0x3B,
   1, 0, 11, 0x48, 0x65, 0x6C, 0x6C, 0x6F, 0x20, 0x57, 0x6F, 0x72, 0x6C, 0x64]

/-! ### C10: buffers shorter than the magic read -/

/-- C10: for every input buffer shorter than 4 bytes,
`extractStringsFromClass`, `extractReadableStrings` and
`assembleClassFile` all throw the out-of-range error of the 4-byte magic
read itself: the result is the thrown `RangeError`, not the InvalidFormat
report and not the UnknownTag report, and the magic comparison is never
reached. -/
theorem short_buffer_throws_range_error (B : List Nat) (name t : String)
    (h : B.length < 4) :
    extractStringsFromClass B name = .error .rangeError ∧
    extractReadableStrings B = .error .rangeError ∧
    assembleClassFile B t = .error .rangeError := by
  rcases B with _ | ⟨a, _ | ⟨b, _ | ⟨c, _ | ⟨d, tl⟩⟩⟩⟩
  · exact ⟨rfl, rfl, rfl⟩
  · exact ⟨rfl, rfl, rfl⟩
  · exact ⟨rfl, rfl, rfl⟩
  · exact ⟨rfl, rfl, rfl⟩
  · simp only [List.length_cons] at h
    omega

/-- Witness for C10 at the empty buffer. -/
theorem short_buffer_throws_range_error_witness :
    ([] : List Nat).length < 4 ∧
    (extractStringsFromClass [] "A.class" = .error .rangeError ∧
     extractReadableStrings [] = .error .rangeError ∧
     assembleClassFile [] "" = .error .rangeError) :=
  ⟨by decide, short_buffer_throws_range_error [] "A.class" "" (by decide)⟩

/-! ### C4: wrong magic -/

/-- C4: on a buffer whose first four bytes exist but are not
`0xCAFEBABE`, extraction reports the InvalidFormat failure immediately,
producing no extracted output (the result is exactly the fixed
error-marker string, which contains no header and no entries), and
assembly throws the invalid-magic error producing no buffer. -/
theorem bad_magic_rejected (B : List Nat) (name t : String) (m : Nat)
    (h4 : getUint32 B 0 = some m) (hm : m ≠ 0xCAFEBABE) :
    extractStringsFromClass B name = .ok invalidMagicMsg ∧
    assembleClassFile B t = .error .invalidMagic := by
  unfold extractStringsFromClass assembleClassFile
  rw [h4]
  simp [hm]

/-- Witness for C4 at the all-zero four-byte buffer. -/
theorem bad_magic_rejected_witness :
    getUint32 [0, 0, 0, 0] 0 = some 0 ∧ (0 : Nat) ≠ 0xCAFEBABE ∧
    (extractStringsFromClass [0, 0, 0, 0] "A.class" = .ok invalidMagicMsg ∧
     assembleClassFile [0, 0, 0, 0] "" = .error .invalidMagic) :=
  ⟨by decide, by decide,
    bad_magic_rejected [0, 0, 0, 0] "A.class" "" 0 (by decide) (by decide)⟩

/-! ### C6: the eligibility filter -/

set_option maxHeartbeats 2000000 in
/-- C6: the eligibility predicate rejects a decoded Utf8 text exactly
when its UTF-16 length is below 2, or it starts with `Ljava/`, or it
starts with `(` and contains `)`, or it contains `()V`, or it contains
`Exception`, or it starts with `META-INF/`, or it contains no letter or
digit code point.  In particular `"Ljava/lang/String;"` is rejected — on
a pool containing it the entry receives no stableId and never appears —
while `"Hello World"` is accepted, receives stableId 0 and appears in
both text projections. -/
theorem eligibility_filter_spec :
    (∀ text : String,
      isValidString text = false ↔
        (utf16Length text < 2 ∨
         startsWithS text "Ljava/" = true ∨
         (startsWithS text "(" = true ∧ containsSub text ")" = true) ∨
         containsSub text "()V" = true ∨
         containsSub text "Exception" = true ∨
         startsWithS text "META-INF/" = true ∨
         text.data.any isLetterOrDigitChar = false)) ∧
    isValidString "Ljava/lang/String;" = false ∧
    isValidString "Hello World" = true ∧
    extractStringsFromClass filterDemoBuf "T.class" =
      .ok (cfgHeader "T.class" ++ "str_0 = \"Hello World\"\n") ∧
    extractReadableStrings filterDemoBuf =
      .ok (refHeader ++ "str_    0 | \"Hello World\"\n") := by
  refine ⟨fun text => ?_, by decide, by decide, by rfl, by rfl⟩
  unfold isValidString
  split_ifs with h1 h2 h3 h4 h5 h6
  · simp [h1]
  · simp [h2]
  · simp only [Bool.and_eq_true] at h3
    simp [h3.1, h3.2]
  · simp [h4]
  · simp [h5]
  · simp [h6]
  · simp only [Bool.and_eq_true] at h3
    simp [h1, h2, h3, h4, h5, h6]

/-! ### C5: unrecognized tags (corrected) -/

/-- Counterexample to C5 as stated: on `unknownTagBuf` (good magic,
unrecognized tag byte 2 at the first pool-entry boundary) the
readable-reference extraction does not raise UnknownTag at all — it skips
past the tag byte, continues, and returns a normal successful output
(the bare header), unlike the extraction pass, which reports the
unknown-tag failure for that position. -/
theorem readable_ignores_unknown_tag_cex :
    extractReadableStrings unknownTagBuf = .ok refHeader ∧
    extractStringsFromClass unknownTagBuf "A.class" =
      .ok (unknownTagMsg 2 11) := by
  exact ⟨rfl, rfl⟩

/-- C5 (amended): whenever the walk, at a pool-entry boundary, reads a
tag byte outside the recognized set, `extractStringsFromClass` stops and
reports the UnknownTag failure for exactly that tag and position
(discarding all accumulated output) and `assembleClassFile` throws the
UnknownTag error at that point; `extractReadableStrings`, however, does
not report anything: its copy of the skip table has no default case, so
it advances one byte and continues the loop, re-reading the byte after
the tag as the next entry. -/
theorem unknown_tag_behaviour (B : List Nat) (repl : List (Nat × String))
    (slots off si : Nat) (accS accR : String) (accB : List Nat) (tag : Nat)
    (htag : getUint8 B off = some tag) (h1 : tag ≠ 1)
    (hsz : tagSize tag = none) :
    extractLoop B (slots + 1) off si accS = .ok (unknownTagMsg tag (off + 1)) ∧
    assembleLoop B repl (slots + 1) off si accB = .error (.unknownTag tag) ∧
    readableLoop B (slots + 1) off si accR =
      readableLoop B slots (off + 1) si accR := by
  refine ⟨?_, ?_, ?_⟩
  · rw [extractLoop]
    simp [htag, h1, hsz]
  · rw [assembleLoop]
    simp [htag, h1, hsz]
  · conv_lhs => rw [readableLoop]
    simp [htag, h1, hsz]

/-- Witness for the amended C5 at the concrete buffer `unknownTagBuf`. -/
theorem unknown_tag_behaviour_witness :
    (getUint8 unknownTagBuf 10 = some 2 ∧ (2 : Nat) ≠ 1 ∧
      tagSize 2 = none) ∧
    (extractLoop unknownTagBuf 1 10 0 "" = .ok (unknownTagMsg 2 11) ∧
     assembleLoop unknownTagBuf [] 1 10 0 [] = .error (.unknownTag 2) ∧
     readableLoop unknownTagBuf 1 10 0 refHeader =
       readableLoop unknownTagBuf 0 11 0 refHeader) :=
  ⟨⟨by decide, by decide, by decide⟩,
    unknown_tag_behaviour unknownTagBuf [] 0 10 0 "" refHeader [] 2
      (by decide) (by decide) (by decide)⟩

/-! ### C7: reference-to-config conversion -/

/-- Concatenation of a list of strings. -/
def strConcat (l : List String) : String := l.foldr (· ++ ·) ""

/-- What `convertReferenceToConfig` emits for one input line: the
re-assembled config line on a reference-regex match (digit capture and
value capture copied verbatim), nothing for a non-matching line. -/
def refEmit (line : List Char) : String :=
  match findRef line with
  | some (ds, v) => "str_" ++ (⟨ds⟩ : String) ++ " = \"" ++ (⟨v⟩ : String) ++ "\"\n"
  | none => ""

theorem convert_foldl_eq (l : List (List Char)) (init : String) :
    l.foldl (fun output line =>
      match findRef line with
      | some (ds, v) =>
          output ++ "str_" ++ (⟨ds⟩ : String) ++ " = \"" ++ (⟨v⟩ : String) ++ "\"\n"
      | none => output) init = init ++ strConcat (l.map refEmit) := by
  induction l generalizing init with
  | nil => simp [strConcat]
  | cons hd tl ih =>
    cases h : findRef hd with
    | some p =>
      obtain ⟨ds, v⟩ := p
      simp only [List.foldl_cons, List.map_cons, h, strConcat, List.foldr_cons]
      rw [ih]
      simp [refEmit, h, strConcat, String.append_assoc]
    | none =>
      simp only [List.foldl_cons, List.map_cons, h, strConcat, List.foldr_cons]
      rw [ih]
      simp [refEmit, h, strConcat]

/-- `convertReferenceToConfig` is the fresh header followed by the
concatenation of the per-line images. -/
theorem convertReferenceToConfig_eq (t name : String) :
    convertReferenceToConfig t name =
      cfgHeader name ++ strConcat ((splitLinesL t.data).map refEmit) := by
  unfold convertReferenceToConfig
  exact convert_foldl_eq (splitLinesL t.data) (cfgHeader name)

/-- C7: `convertReferenceToConfig` re-synthesizes the header and emits,
for each input line matching the reference pattern, exactly the line
`str_<digits> = "<value>"` (captures copied verbatim), dropping every
non-matching line; in particular the reference line
`str_    3 | "Cancel"` converts to `str_3 = "Cancel"`, and the same line
with the pipe separator missing produces no output line. -/
theorem reference_to_config_conversion :
    (∀ text name : String,
      convertReferenceToConfig text name =
        cfgHeader name ++ strConcat ((splitLinesL text.data).map refEmit)) ∧
    (∀ name : String,
      convertReferenceToConfig "str_    3 | \"Cancel\"" name =
        cfgHeader name ++ "str_3 = \"Cancel\"\n") ∧
    (∀ name : String,
      convertReferenceToConfig "str_    3  \"Cancel\"" name = cfgHeader name) := by
  refine ⟨fun t name => convertReferenceToConfig_eq t name,
    fun name => ?_, fun name => ?_⟩
  · rw [convertReferenceToConfig_eq]
    rfl
  · rw [convertReferenceToConfig_eq]
    rw [show strConcat ((splitLinesL ("str_    3  \"Cancel\"" : String).data).map refEmit) =
          "" from rfl]
    exact String.append_empty (cfgHeader name)

/-! ### C9: the edit set binds an id to its last matching line -/

/-- The binding one line contributes to the edit set, if any. -/
def cfgLineBinding (line : List Char) : Option (Nat × String) :=
  match findCfg line with
  | some (ds, v) => some (digitsVal ds, fromJavaUnicode ⟨v⟩)
  | none => none

theorem parseReplacements_eq (t : String) :
    parseReplacements t = (splitLinesL t.data).filterMap cfgLineBinding := by
  have main : ∀ (l : List (List Char)) (m : List (Nat × String)),
      l.foldl (fun m line =>
        match findCfg line with
        | some (ds, v) => m ++ [(digitsVal ds, fromJavaUnicode ⟨v⟩)]
        | none => m) m = m ++ l.filterMap cfgLineBinding := by
    intro l
    induction l with
    | nil => intro m; simp
    | cons hd tl ih =>
      intro m
      cases h : findCfg hd with
      | some p =>
        obtain ⟨ds, v⟩ := p
        simp [h, ih, cfgLineBinding, List.filterMap_cons]
      | none => simp [h, ih, cfgLineBinding, List.filterMap_cons]
  simpa [parseReplacements] using main (splitLinesL t.data) []

/-- `Map.get` after the chronological inserts returns the most recently
set binding: the last element of the matching bindings. -/
theorem mapGet_last (m : List (Nat × String)) (k : Nat) :
    mapGet m k =
      ((m.filter (fun p => decide (p.1 = k))).getLast?).map Prod.snd := by
  induction m using List.reverseRecOn with
  | nil => rfl
  | append_singleton m a ih =>
    by_cases h : a.1 = k
    · simp [mapGet, List.reverse_append, List.find?, h, List.filter_append,
        List.getLast?_concat]
    · simp [mapGet, List.reverse_append, List.find?, h, List.filter_append, ih]
      cases List.find? (fun p => decide (p.1 = k)) m.reverse <;> rfl

/-- Value of the last line of `t` that matches the edit pattern with
id `k` (the claim-side reading of the EditSet semantics). -/
def lastBindingValue (t : String) (k : Nat) : Option String :=
  ((((splitLinesL t.data).filterMap cfgLineBinding).filter
      (fun p => decide (p.1 = k))).getLast?).map Prod.snd

/-- C9: when several lines of the edit text match the edit pattern with
the same id — including lines where the pattern occurs after other
characters, such as inside a comment line — the EditSet binds the id to
the value of the last such line, and that value is what assembly writes:
on `sampleClass`, editing with a matching line followed by a
commented-out matching line makes the comment line win, and the
assembled buffer holds its value. -/
theorem edit_set_last_line_wins :
    (∀ (t : String) (k : Nat),
      mapGet (parseReplacements t) k = lastBindingValue t k) ∧
    parseReplacements "str_0 = \"A\"\n# str_0 = \"B\"" = [(0, "A"), (0, "B")] ∧
    mapGet (parseReplacements "str_0 = \"A\"\n# str_0 = \"B\"") 0 = some "B" ∧
    assembleClassFile sampleClass "str_0 = \"A\"\n# str_0 = \"B\"" =
      .ok [0xCA, 0xFE, 0xBA, 0xBE, 0, 0, 0, 0x34, 0, 3,
           1, 0, 1, 0x42, 3, 0, 0, 0, 0x2A, 0xDE, 0xAD] := by
  refine ⟨fun t k => ?_, by rfl, by rfl, by rfl⟩
  rw [parseReplacements_eq]
  exact mapGet_last _ k

/-! ### C8: the extraction output headers (corrected) -/

/-- Counterexample to C8 as stated: the reference-view output does not
begin with the `# Translation File: <name>` header the claim requires —
`extractReadableStrings` emits its own different three-line header
(`# RAW CONSTANT POOL (REFERENCE ONLY)` and two more comment lines) with
no blank line after it. -/
theorem reference_header_differs_cex :
    extractReadableStrings sampleClass =
      .ok (refHeader ++ "str_    0 | \"OK\"\n") ∧
    startsWithS (refHeader ++ "str_    0 | \"OK\"\n") "# Translation File: " =
      false ∧
    startsWithS (refHeader ++ "str_    0 | \"OK\"\n")
      "# RAW CONSTANT POOL (REFERENCE ONLY)\n" = true := by
  refine ⟨rfl, by decide, by decide⟩

/-- C8 (amended): on every buffer that parses cleanly, the config-view
output (`extractStringsFromClass`) begins with the 3-line comment header
`# Translation File: <name>` / `# Only edit text inside quotes "..."` /
`# Format: str_ID = "Value"` followed by a blank line and then one line
per eligible string (`cfgHeader` and `cfgLinesOf`); the reference-view
output (`extractReadableStrings`) instead begins with its own, different
3-line comment header (`refHeader`, starting `# RAW CONSTANT POOL`),
with no blank line after it, followed by one line per eligible string. -/
theorem extraction_output_headers (B : List Nat) (name : String)
    (cp : Nat) (es : List PoolEnt) (fin : Nat)
    (hm : getUint32 B 0 = some 0xCAFEBABE) (hcp : getUint16 B 8 = some cp)
    (hw : poolWalk B (cp - 1) 10 = .ok (es, fin)) :
    extractStringsFromClass B name = .ok (cfgHeader name ++ cfgLinesOf es 0) ∧
    extractReadableStrings B = .ok (refHeader ++ refLinesOf es 0) := by
  constructor
  · rw [extractStringsFromClass_eq_walk B name cp hm hcp, hw]
    rfl
  · exact extractReadableStrings_eq_walk B cp es fin hm hcp hw

/-- Witness for the amended C8 at `sampleClass`. -/
theorem extraction_output_headers_witness :
    (getUint32 sampleClass 0 = some 0xCAFEBABE ∧
     getUint16 sampleClass 8 = some 3 ∧
     poolWalk sampleClass 2 10 =
       .ok ([PoolEnt.utf8 10 2 [0x4F, 0x4B],
             PoolEnt.other 15 3 [0, 0, 0, 0x2A]], 20)) ∧
    (extractStringsFromClass sampleClass "Main.class" =
       .ok (cfgHeader "Main.class" ++
         cfgLinesOf [PoolEnt.utf8 10 2 [0x4F, 0x4B],
                     PoolEnt.other 15 3 [0, 0, 0, 0x2A]] 0) ∧
     extractReadableStrings sampleClass =
       .ok (refHeader ++
         refLinesOf [PoolEnt.utf8 10 2 [0x4F, 0x4B],
                     PoolEnt.other 15 3 [0, 0, 0, 0x2A]] 0)) :=
  ⟨⟨by decide, by decide, by rfl⟩,
    extraction_output_headers sampleClass "Main.class" 3
      [PoolEnt.utf8 10 2 [0x4F, 0x4B], PoolEnt.other 15 3 [0, 0, 0, 0x2A]] 20
      (by decide) (by decide) (by rfl)⟩

/-! ### C1: extraction and assembly are renderings of one walk -/

/-- C1: on the same buffer, the extraction pass and the assembly
re-walk are images of the single pool traversal `poolWalk`: extraction
renders `cfgLinesOf es 0` and assembly emits `asmBytesOf repl es 0`,
where both functions traverse the same entry list `es`, apply the same
eligibility test (`isValidString` of the decoded payload) to each entry,
and number the eligible entries sequentially from 0 in pool-encounter
order (the stableId counter advances exactly on eligible entries in
both).  Hence an edit keyed by stableId `k` is applied by
`asmBytesOf` to exactly the `k`-th eligible Utf8 entry that extraction
reported, at the same pool position. -/
theorem extract_assemble_share_walk (B : List Nat) (name t : String)
    (cp : Nat) (es : List PoolEnt) (fin : Nat)
    (hm : getUint32 B 0 = some 0xCAFEBABE) (hcp : getUint16 B 8 = some cp)
    (hw : poolWalk B (cp - 1) 10 = .ok (es, fin)) :
    extractStringsFromClass B name = .ok (cfgHeader name ++ cfgLinesOf es 0) ∧
    assembleClassFile B t =
      .ok ((B.take 8 ++ writeU2bytes cp) ++
        (asmBytesOf (parseReplacements t) es 0 ++ B.drop fin)) := by
  constructor
  · rw [extractStringsFromClass_eq_walk B name cp hm hcp, hw]
    rfl
  · rw [assembleClassFile_eq_walk B t cp hm hcp, hw]
    simp [asmRes, List.append_assoc]

/-- Witness for C1 at `sampleClass` with the edit `str_0 = "Yes"`. -/
theorem extract_assemble_share_walk_witness :
    (getUint32 sampleClass 0 = some 0xCAFEBABE ∧
     getUint16 sampleClass 8 = some 3 ∧
     poolWalk sampleClass 2 10 =
       .ok ([PoolEnt.utf8 10 2 [0x4F, 0x4B],
             PoolEnt.other 15 3 [0, 0, 0, 0x2A]], 20)) ∧
    (extractStringsFromClass sampleClass "Main.class" =
       .ok (cfgHeader "Main.class" ++
         cfgLinesOf [PoolEnt.utf8 10 2 [0x4F, 0x4B],
                     PoolEnt.other 15 3 [0, 0, 0, 0x2A]] 0) ∧
     assembleClassFile sampleClass "str_0 = \"Yes\"" =
       .ok ((sampleClass.take 8 ++ writeU2bytes 3) ++
         (asmBytesOf (parseReplacements "str_0 = \"Yes\"")
            [PoolEnt.utf8 10 2 [0x4F, 0x4B],
             PoolEnt.other 15 3 [0, 0, 0, 0x2A]] 0 ++ sampleClass.drop 20))) :=
  ⟨⟨by decide, by decide, by rfl⟩,
    extract_assemble_share_walk sampleClass "Main.class" "str_0 = \"Yes\"" 3
      [PoolEnt.utf8 10 2 [0x4F, 0x4B], PoolEnt.other 15 3 [0, 0, 0, 0x2A]] 20
      (by decide) (by decide) (by rfl)⟩

/-! ### Helper lemmas: scanners on rendered text -/

theorem scanValue_cons_plain (c : Char) (l : List Char) (h1 : c ≠ '"')
    (h2 : c ≠ '\\') :
    scanValue (c :: l) = (scanValue l).map (fun p => (c :: p.1, p.2)) := by
  rw [scanValue.eq_def]
  split
  · simp_all
  · simp_all
  · simp_all
  · simp_all
  · rename_i heq
    simp only [List.cons.injEq] at heq
    simp [heq.1, heq.2]

theorem scanValue_plain (xs l : List Char)
    (h : ∀ c ∈ xs, c ≠ '"' ∧ c ≠ '\\') :
    scanValue (xs ++ l) = (scanValue l).map (fun p => (xs ++ p.1, p.2)) := by
  induction xs with
  | nil =>
    simp only [List.nil_append]
    cases scanValue l with
    | none => rfl
    | some p => rfl
  | cons c cs ih =>
    have hc := h c (List.mem_cons_self c cs)
    rw [List.cons_append, scanValue_cons_plain c (cs ++ l) hc.1 hc.2,
      ih (fun x hx => h x (List.mem_cons_of_mem c hx))]
    cases scanValue l with
    | none => rfl
    | some p => rfl

/-! ### Helper lemmas: characters, hex digits, decimal digits -/

theorem char_ofNat_toNat (c : Char) : Char.ofNat c.toNat = c := by
  have hv : c.toNat.isValidChar := c.valid
  rw [Char.ofNat, dif_pos hv]
  apply Char.ext
  apply UInt32.ext
  simp [Char.ofNatAux, Char.toNat, UInt32.toNat, BitVec.toNat_ofNatLt]

theorem char_toNat_ofNat (m : Nat) (h : m.isValidChar) :
    (Char.ofNat m).toNat = m := by
  rw [Char.ofNat, dif_pos h]
  simp [Char.ofNatAux, Char.toNat, UInt32.toNat, BitVec.toNat_ofNatLt]

theorem digitChar_toNat (n : Nat) (h : n < 10) : (digitChar n).toNat = 48 + n := by
  rw [digitChar, char_toNat_ofNat]
  left
  omega

theorem digitChar_facts (n : Nat) (h : n < 10) :
    (digitChar n).isDigit = true ∧ digitChar n ≠ ('\n' : Char) ∧
    digitChar n ≠ '"' ∧ digitChar n ≠ '\\' := by
  unfold digitChar
  interval_cases n <;> exact ⟨by decide, by decide, by decide, by decide⟩

theorem hexDigitChar_facts (m : Nat) (hm : m < 16) :
    hexVal (hexDigitChar m) = some m ∧ hexDigitChar m ≠ '"' ∧
    hexDigitChar m ≠ '\\' ∧ hexDigitChar m ≠ ('\n' : Char) ∧
    ¬ (hexDigitChar m).toNat < 0x20 := by
  unfold hexDigitChar
  interval_cases m <;>
    exact ⟨by decide, by decide, by decide, by decide, by decide⟩

theorem hex4_small (n : Nat) (hn : n < 256) :
    hex4 n = ['0', '0', hexDigitChar (n / 16), hexDigitChar (n % 16)] := by
  unfold hex4 hexRepr
  by_cases h : n < 16
  · rw [hexAux]
    simp only [h, if_true, ite_true]
    have h1 : n / 16 = 0 := Nat.div_eq_of_lt h
    have h2 : n % 16 = n := Nat.mod_eq_of_lt h
    have h3 : hexDigitChar 0 = '0' := by decide
    rw [h1, h2, h3]
    simp [List.replicate]
  · obtain ⟨m, rfl⟩ : ∃ m, n = m + 1 := ⟨n - 1, by omega⟩
    rw [hexAux]
    simp only [h, if_false, ite_false]
    rw [hexAux]
    have h1 : (m + 1) / 16 < 16 := by omega
    simp only [h1, if_true, ite_true]
    simp [List.replicate]

/-! ### Helper lemmas: the escape round trip -/

theorem scanValue_esc (x : Char) (l : List Char) :
    scanValue ('\\' :: x :: l) =
      (scanValue l).map (fun p => ('\\' :: x :: p.1, p.2)) := rfl

theorem jsonEsc_u_nat (n : Nat) (hn : n < 32) (r : List Char) :
    jsonEsc ('u' :: (hex4 n ++ r)) = some (Char.ofNat n, 5) := by
  interval_cases n <;> rfl

theorem jsonEsc_u (c : Char) (hc : c.toNat < 32) (r : List Char) :
    jsonEsc ('u' :: (hex4 c.toNat ++ r)) = some (c, 5) := by
  rw [jsonEsc_u_nat c.toNat hc r, char_ofNat_toNat]

theorem jsonStrAux_cons_plain (fuel : Nat) (c : Char) (l : List Char)
    (h1 : c ≠ '"') (h2 : c ≠ '\\') (h3 : ¬ c.toNat < 0x20) :
    jsonStrAux (fuel + 1) (c :: l) =
      (jsonStrAux fuel l).map (fun x => c :: x) := by
  rw [jsonStrAux.eq_def]
  split <;> simp_all

theorem jsonStrAux_esc (fuel : Nat) (rest : List Char) :
    jsonStrAux (fuel + 1) ('\\' :: rest) =
      match jsonEsc rest with
      | none => none
      | some (c, k) => (jsonStrAux fuel (rest.drop k)).map (fun l => c :: l) :=
  rfl

theorem hex4_length (n : Nat) (hn : n < 256) : (hex4 n).length = 4 := by
  rw [hex4_small n hn]
  rfl

theorem jsonStrAux_toJava (cs : List Char) : ∀ fuel : Nat,
    ((cs.map toJavaUnicodeChar).flatten).length < fuel →
    jsonStrAux fuel ((cs.map toJavaUnicodeChar).flatten) = some cs := by
  induction cs with
  | nil =>
    intro fuel hf
    obtain ⟨f, rfl⟩ : ∃ f, fuel = f + 1 := ⟨fuel - 1, by omega⟩
    rfl
  | cons c cs ih =>
    intro fuel hf
    simp only [List.map_cons, List.flatten_cons] at hf ⊢
    by_cases hq : c = '"'
    · subst hq
      obtain ⟨f, rfl⟩ : ∃ f, fuel = f + 1 := ⟨fuel - 1, by omega⟩
      rw [show toJavaUnicodeChar '"' = ['\\', '"'] from rfl] at hf ⊢
      simp only [List.cons_append, List.nil_append] at hf ⊢
      rw [jsonStrAux_esc]
      rw [show jsonEsc ('"' :: (cs.map toJavaUnicodeChar).flatten) =
        some ('"', 1) from rfl]
      simp only [List.drop_one, List.tail_cons]
      rw [ih f (by simp only [List.length_cons] at hf; omega)]
      rfl
    · by_cases hb : c = '\\'
      · subst hb
        obtain ⟨f, rfl⟩ : ∃ f, fuel = f + 1 := ⟨fuel - 1, by omega⟩
        rw [show toJavaUnicodeChar '\\' = ['\\', '\\'] from rfl] at hf ⊢
        simp only [List.cons_append, List.nil_append] at hf ⊢
        rw [jsonStrAux_esc]
        rw [show jsonEsc ('\\' :: (cs.map toJavaUnicodeChar).flatten) =
          some ('\\', 1) from rfl]
        simp only [List.drop_one, List.tail_cons]
        rw [ih f (by simp only [List.length_cons] at hf; omega)]
        rfl
      · by_cases hctl : c.toNat < 32
        · have hu : toJavaUnicodeChar c = '\\' :: 'u' :: hex4 c.toNat := by
            unfold toJavaUnicodeChar
            rw [if_neg hq, if_neg hb, if_pos hctl]
          rw [hu] at hf ⊢
          obtain ⟨f, rfl⟩ : ∃ f, fuel = f + 1 := ⟨fuel - 1, by omega⟩
          simp only [List.cons_append] at hf ⊢
          rw [jsonStrAux_esc]
          rw [show ('u' :: (hex4 c.toNat ++ (cs.map toJavaUnicodeChar).flatten)) =
            'u' :: (hex4 c.toNat ++ (cs.map toJavaUnicodeChar).flatten) from rfl]
          rw [jsonEsc_u c hctl]
          simp only
          have hdrop :
              ('u' :: (hex4 c.toNat ++ (cs.map toJavaUnicodeChar).flatten)).drop 5 =
                (cs.map toJavaUnicodeChar).flatten := by
            rw [List.drop_succ_cons]
            rw [show (4 : Nat) = (hex4 c.toNat).length from
              (hex4_length c.toNat (by omega)).symm]
            exact List.drop_left _ _
          rw [hdrop]
          rw [ih f (by
            simp only [List.length_cons, List.length_append,
              hex4_length c.toNat (by omega)] at hf
            omega)]
          rfl
        · have hu : toJavaUnicodeChar c = [c] := by
            unfold toJavaUnicodeChar
            rw [if_neg hq, if_neg hb, if_neg hctl]
          rw [hu] at hf ⊢
          obtain ⟨f, rfl⟩ : ∃ f, fuel = f + 1 := ⟨fuel - 1, by omega⟩
          rw [List.singleton_append, jsonStrAux_cons_plain f c _ hq hb hctl]
          rw [ih f (by
            simp only [List.singleton_append, List.length_cons] at hf
            omega)]
          rfl

/-- The display escaping and the `JSON.parse` unescaping cancel: this is
the identity the round trip relies on. -/
theorem fromJava_toJava (str : String) :
    fromJavaUnicode (toJavaUnicode str) = str := by
  unfold fromJavaUnicode jsonStr toJavaUnicode
  simp only
  rw [jsonStrAux_toJava str.data _ (by omega)]

theorem scanValue_toJava (cs : List Char) (rest : List Char) :
    scanValue ((cs.map toJavaUnicodeChar).flatten ++ '"' :: rest) =
      some ((cs.map toJavaUnicodeChar).flatten, rest) := by
  induction cs with
  | nil => rfl
  | cons c cs ih =>
    simp only [List.map_cons, List.flatten_cons, List.append_assoc]
    by_cases hq : c = '"'
    · subst hq
      rw [show toJavaUnicodeChar '"' = ['\\', '"'] from rfl]
      simp only [List.cons_append, List.nil_append]
      rw [scanValue_esc, ih]
      rfl
    · by_cases hb : c = '\\'
      · subst hb
        rw [show toJavaUnicodeChar '\\' = ['\\', '\\'] from rfl]
        simp only [List.cons_append, List.nil_append]
        rw [scanValue_esc, ih]
        rfl
      · by_cases hctl : c.toNat < 32
        · have hu : toJavaUnicodeChar c = '\\' :: 'u' :: hex4 c.toNat := by
            unfold toJavaUnicodeChar
            rw [if_neg hq, if_neg hb, if_pos hctl]
          rw [hu]
          simp only [List.cons_append]
          rw [scanValue_esc]
          have hplain4 : ∀ x ∈ hex4 c.toNat, x ≠ '"' ∧ x ≠ '\\' := by
            intro x hx
            rw [hex4_small c.toNat (by omega)] at hx
            simp only [List.mem_cons, List.not_mem_nil, or_false] at hx
            rcases hx with h | h | h | h
            · exact ⟨by rw [h]; decide, by rw [h]; decide⟩
            · exact ⟨by rw [h]; decide, by rw [h]; decide⟩
            · obtain ⟨-, hx1, hx2, -, -⟩ :=
                hexDigitChar_facts (c.toNat / 16) (by omega)
              exact ⟨by rw [h]; exact hx1, by rw [h]; exact hx2⟩
            · obtain ⟨-, hx1, hx2, -, -⟩ :=
                hexDigitChar_facts (c.toNat % 16) (by omega)
              exact ⟨by rw [h]; exact hx1, by rw [h]; exact hx2⟩
          rw [scanValue_plain (hex4 c.toNat) _ hplain4, ih]
          rfl
        · have hu : toJavaUnicodeChar c = [c] := by
            unfold toJavaUnicodeChar
            rw [if_neg hq, if_neg hb, if_neg hctl]
          rw [hu]
          simp only [List.singleton_append]
          rw [scanValue_cons_plain c _ hq hb, ih]
          rfl

/-- Characters produced by the display escaping are never a newline (all
code points below 32 are escaped), so each rendered line is one line. -/
theorem toJava_no_newline (cs : List Char) :
    ∀ x ∈ (cs.map toJavaUnicodeChar).flatten, x ≠ ('\n' : Char) := by
  induction cs with
  | nil => intro x hx; simp at hx
  | cons c cs ih =>
    intro x hx
    simp only [List.map_cons, List.flatten_cons, List.mem_append] at hx
    rcases hx with hx | hx
    · by_cases hq : c = '"'
      · subst hq
        rw [show toJavaUnicodeChar '"' = ['\\', '"'] from rfl] at hx
        simp only [List.mem_cons, List.not_mem_nil, or_false] at hx
        rcases hx with h | h
        · rw [h]; decide
        · rw [h]; decide
      · by_cases hb : c = '\\'
        · subst hb
          rw [show toJavaUnicodeChar '\\' = ['\\', '\\'] from rfl] at hx
          simp only [List.mem_cons, List.not_mem_nil, or_false] at hx
          rcases hx with h | h
          · rw [h]; decide
          · rw [h]; decide
        · by_cases hctl : c.toNat < 32
          · have hu : toJavaUnicodeChar c = '\\' :: 'u' :: hex4 c.toNat := by
              unfold toJavaUnicodeChar
              rw [if_neg hq, if_neg hb, if_pos hctl]
            rw [hu] at hx
            simp only [List.mem_cons] at hx
            rcases hx with h | h | h
            · rw [h]; decide
            · rw [h]; decide
            · rw [hex4_small c.toNat (by omega)] at h
              simp only [List.mem_cons, List.not_mem_nil, or_false] at h
              rcases h with h | h | h | h
              · rw [h]; decide
              · rw [h]; decide
              · obtain ⟨-, -, -, hnl, -⟩ :=
                  hexDigitChar_facts (c.toNat / 16) (by omega)
                rw [h]; exact hnl
              · obtain ⟨-, -, -, hnl, -⟩ :=
                  hexDigitChar_facts (c.toNat % 16) (by omega)
                rw [h]; exact hnl
          · have hu : toJavaUnicodeChar c = [c] := by
              unfold toJavaUnicodeChar
              rw [if_neg hq, if_neg hb, if_neg hctl]
            rw [hu] at hx
            simp only [List.mem_singleton] at hx
            subst hx
            intro hcon
            rw [hcon] at hctl
            exact hctl (by decide)
    · exact ih x hx

/-! ### Helper lemmas: decimal ids -/

theorem decimalAux_spec : ∀ (fuel n : Nat), n < fuel →
    (∀ c ∈ decimalAux fuel n, c.isDigit = true ∧ c ≠ ('\n' : Char) ∧
      c ≠ '"' ∧ c ≠ '\\') ∧
    digitsVal (decimalAux fuel n) = n ∧ decimalAux fuel n ≠ [] := by
  intro fuel
  induction fuel with
  | zero => intro n hn; omega
  | succ fuel ih =>
    intro n hn
    rw [decimalAux]
    by_cases h : n < 10
    · simp only [h, if_true, ite_true]
      obtain ⟨h1, h2, h3, h4⟩ := digitChar_facts n h
      refine ⟨?_, ?_, by simp⟩
      · intro c hc
        simp only [List.mem_singleton] at hc
        subst hc
        exact ⟨h1, h2, h3, h4⟩
      · simp [digitsVal, digitChar_toNat n h]
    · simp only [h, if_false, ite_false]
      have hdiv : n / 10 < fuel := by omega
      obtain ⟨ihm, ihv, ihne⟩ := ih (n / 10) hdiv
      obtain ⟨h1, h2, h3, h4⟩ := digitChar_facts (n % 10) (by omega)
      refine ⟨?_, ?_, by simp⟩
      · intro c hc
        rcases List.mem_append.1 hc with hc | hc
        · exact ihm c hc
        · simp only [List.mem_singleton] at hc
          subst hc
          exact ⟨h1, h2, h3, h4⟩
      · unfold digitsVal at ihv ⊢
        rw [List.foldl_append, ihv]
        simp only [List.foldl_cons, List.foldl_nil]
        rw [digitChar_toNat (n % 10) (by omega)]
        omega

theorem decimalRepr_spec (n : Nat) :
    (∀ c ∈ decimalRepr n, c.isDigit = true ∧ c ≠ ('\n' : Char) ∧
      c ≠ '"' ∧ c ≠ '\\') ∧
    digitsVal (decimalRepr n) = n ∧ decimalRepr n ≠ [] :=
  decimalAux_spec (n + 1) n (by omega)

/-! ### Helper lemmas: takeWhile, dropWhile, line splitting -/

theorem takeWhile_append_stop (p : Char → Bool) (xs : List Char) (y : Char)
    (ys : List Char) (hall : ∀ x ∈ xs, p x = true) (hy : p y = false) :
    (xs ++ y :: ys).takeWhile p = xs := by
  induction xs with
  | nil => simp [List.takeWhile, hy]
  | cons a l ih =>
    have ha := hall a (List.mem_cons_self a l)
    simp only [List.cons_append, List.takeWhile_cons, ha, ite_true]
    rw [ih (fun x hx => hall x (List.mem_cons_of_mem a hx))]

theorem dropWhile_append_stop (p : Char → Bool) (xs : List Char) (y : Char)
    (ys : List Char) (hall : ∀ x ∈ xs, p x = true) (hy : p y = false) :
    (xs ++ y :: ys).dropWhile p = y :: ys := by
  induction xs with
  | nil => simp [List.dropWhile, hy]
  | cons a l ih =>
    have ha := hall a (List.mem_cons_self a l)
    simp only [List.cons_append, List.dropWhile_cons, ha, ite_true]
    exact ih (fun x hx => hall x (List.mem_cons_of_mem a hx))

theorem splitLinesL_ne_nil (l : List Char) : splitLinesL l ≠ [] := by
  cases l with
  | nil => simp [splitLinesL]
  | cons c rest =>
    rw [splitLinesL]
    cases h : splitLinesL rest with
    | nil => simp
    | cons hd tl =>
      by_cases hc : c = '\n'
      · simp [hc]
      · simp [hc]

theorem splitLinesL_append (xs ys : List Char) (h : ('\n' : Char) ∉ xs) :
    splitLinesL (xs ++ '\n' :: ys) = xs :: splitLinesL ys := by
  induction xs with
  | nil =>
    rw [List.nil_append, splitLinesL]
    cases hs : splitLinesL ys with
    | nil => exact absurd hs (splitLinesL_ne_nil ys)
    | cons hd tl => simp
  | cons c l ih =>
    have hc : c ≠ ('\n' : Char) := fun hcc => h (hcc ▸ List.mem_cons_self c l)
    rw [List.cons_append, splitLinesL,
      ih (fun hm => h (List.mem_cons_of_mem c hm))]
    simp [hc]

theorem splitLinesL_no_newline (xs : List Char) (h : ('\n' : Char) ∉ xs) :
    splitLinesL xs = [xs] := by
  induction xs with
  | nil => rfl
  | cons c l ih =>
    have hc : c ≠ ('\n' : Char) := fun hcc => h (hcc ▸ List.mem_cons_self c l)
    rw [splitLinesL, ih (fun hm => h (List.mem_cons_of_mem c hm))]
    simp [hc]

/-! ### Parsing the rendered config lines back -/

/-- The characters of one rendered config line, without the trailing
newline. -/
def cfgLineBody (si : Nat) (text : String) : List Char :=
  ("str_" : String).data ++ (decimalRepr si ++ ((" = \"" : String).data ++
    ((text.data.map toJavaUnicodeChar).flatten ++ ['"'])))

theorem cfgLine_data (si : Nat) (text : String) :
    (cfgLine si text).data = cfgLineBody si text ++ ['\n'] := by
  unfold cfgLine cfgLineBody decimalStr toJavaUnicode
  simp [String.data_append, List.append_assoc]

theorem findCfg_cfgLineBody (si : Nat) (text : String) :
    findCfg (cfgLineBody si text) =
      some (decimalRepr si, (text.data.map toJavaUnicodeChar).flatten) := by
  obtain ⟨hdig, hval, hne⟩ := decimalRepr_spec si
  have hm : matchCfgAt (cfgLineBody si text) =
      some (decimalRepr si, (text.data.map toJavaUnicodeChar).flatten) := by
    have hbody : cfgLineBody si text =
        's' :: 't' :: 'r' :: '_' :: (decimalRepr si ++
          (' ' :: '=' :: ' ' :: '"' ::
            ((text.data.map toJavaUnicodeChar).flatten ++ ['"']))) := rfl
    rw [hbody, matchCfgAt]
    have htake : (decimalRepr si ++
        (' ' :: '=' :: ' ' :: '"' ::
          ((text.data.map toJavaUnicodeChar).flatten ++ ['"']))).takeWhile
            Char.isDigit = decimalRepr si :=
      takeWhile_append_stop _ _ _ _ (fun x hx => (hdig x hx).1) (by decide)
    have hdrop : (decimalRepr si ++
        (' ' :: '=' :: ' ' :: '"' ::
          ((text.data.map toJavaUnicodeChar).flatten ++ ['"']))).dropWhile
            Char.isDigit =
        ' ' :: '=' :: ' ' :: '"' ::
          ((text.data.map toJavaUnicodeChar).flatten ++ ['"']) :=
      dropWhile_append_stop _ _ _ _ (fun x hx => (hdig x hx).1) (by decide)
    have hemp : (decimalRepr si).isEmpty = false := by
      cases hdr : decimalRepr si with
      | nil => exact absurd hdr hne
      | cons a l => rfl
    rw [htake, hdrop, hemp]
    simp only [Bool.false_eq_true, if_false, ite_false]
    have hsp1 : (' ' :: '=' :: ' ' :: '"' ::
        ((text.data.map toJavaUnicodeChar).flatten ++ ['"'])).dropWhile
          isJsSpace =
        '=' :: ' ' :: '"' ::
          ((text.data.map toJavaUnicodeChar).flatten ++ ['"']) := rfl
    rw [hsp1]
    have hsp2 : (' ' :: '"' ::
        ((text.data.map toJavaUnicodeChar).flatten ++ ['"'])).dropWhile
          isJsSpace =
        '"' :: ((text.data.map toJavaUnicodeChar).flatten ++ ['"']) := rfl
    split
    · rename_i r1 heq
      simp only [List.cons.injEq] at heq
      obtain ⟨-, rfl⟩ := heq
      rw [hsp2]
      split
      · rename_i r2 heq2
        simp only [List.cons.injEq] at heq2
        obtain ⟨-, rfl⟩ := heq2
        rw [show ((text.data.map toJavaUnicodeChar).flatten ++ ['"']) =
          ((text.data.map toJavaUnicodeChar).flatten ++ '"' :: []) from rfl,
          scanValue_toJava text.data []]
        rfl
      · rename_i hbad
        exact absurd rfl (hbad ((text.data.map toJavaUnicodeChar).flatten ++ ['"']))
    · rename_i hbad
      exact absurd rfl (hbad (' ' :: '"' ::
        ((text.data.map toJavaUnicodeChar).flatten ++ ['"'])))
  have hbody2 : cfgLineBody si text =
      's' :: ('t' :: 'r' :: '_' :: (decimalRepr si ++
        (' ' :: '=' :: ' ' :: '"' ::
          ((text.data.map toJavaUnicodeChar).flatten ++ ['"'])))) := rfl
  rw [hbody2, findCfg]
  rw [← hbody2, hm]

theorem cfgLineBody_no_newline (si : Nat) (text : String) :
    ('\n' : Char) ∉ cfgLineBody si text := by
  intro hmem
  unfold cfgLineBody at hmem
  simp only [List.mem_append, List.mem_cons, List.not_mem_nil, or_false] at hmem
  obtain ⟨hdig, -, -⟩ := decimalRepr_spec si
  rcases hmem with h | h | h | h | h
  · exact absurd h (by decide)
  · exact absurd rfl (hdig _ h).2.1
  · exact absurd h (by decide)
  · exact absurd rfl (toJava_no_newline text.data _ h)
  · exact absurd h (by decide)

/-- The line bodies of the config rendering of a walk. -/
def cfgBodyLines : List PoolEnt → Nat → List (List Char)
  | [], _ => []
  | e :: es, si =>
    if e.elig then cfgLineBody si e.text :: cfgBodyLines es (si + 1)
    else cfgBodyLines es si

theorem splitLines_cfgLinesOf : ∀ (es : List PoolEnt) (si : Nat),
    splitLinesL (cfgLinesOf es si).data = cfgBodyLines es si ++ [[]] := by
  intro es
  induction es with
  | nil => intro si; rfl
  | cons e es ih =>
    intro si
    rw [cfgLinesOf, cfgBodyLines]
    by_cases he : e.elig
    · simp only [he, if_true, ite_true]
      rw [String.data_append, cfgLine_data, List.append_assoc,
        List.singleton_append,
        splitLinesL_append _ _ (cfgLineBody_no_newline si e.text), ih]
      rfl
    · simp only [he, Bool.false_eq_true, if_false, ite_false]
      exact ih si

/-- The first header line of the config output. -/
def headerLine1 (name : String) : List Char :=
  ("# Translation File: " : String).data ++ name.data

theorem splitLines_cfg (name : String) (es : List PoolEnt)
    (hn : ('\n' : Char) ∉ name.data) :
    splitLinesL (cfgHeader name ++ cfgLinesOf es 0).data =
      headerLine1 name ::
        ("# Only edit text inside quotes \"...\"" : String).data ::
        ("# Format: str_ID = \"Value\"" : String).data ::
        [] :: (cfgBodyLines es 0 ++ [[]]) := by
  have hdata : (cfgHeader name ++ cfgLinesOf es 0).data =
      headerLine1 name ++ '\n' ::
        (("# Only edit text inside quotes \"...\"" : String).data ++ '\n' ::
          (("# Format: str_ID = \"Value\"" : String).data ++ '\n' ::
            ('\n' :: (cfgLinesOf es 0).data))) := by
    unfold cfgHeader headerLine1
    simp [String.data_append, List.append_assoc]
  rw [hdata]
  rw [splitLinesL_append _ _ (by
    intro hmem
    unfold headerLine1 at hmem
    rcases List.mem_append.1 hmem with h | h
    · revert h
      decide
    · exact hn h)]
  rw [splitLinesL_append _ _ (by decide)]
  rw [splitLinesL_append _ _ (by decide)]
  rw [show ('\n' :: (cfgLinesOf es 0).data) = [] ++ '\n' :: (cfgLinesOf es 0).data from rfl]
  rw [splitLinesL_append _ _ (by decide)]
  rw [splitLines_cfgLinesOf es 0]

theorem cfgLineBinding_body (k : Nat) (t : String) :
    cfgLineBinding (cfgLineBody k t) = some (k, t) := by
  unfold cfgLineBinding
  rw [findCfg_cfgLineBody]
  simp only
  rw [(decimalRepr_spec k).2.1]
  have : (⟨(t.data.map toJavaUnicodeChar).flatten⟩ : String) = toJavaUnicode t := rfl
  rw [this, fromJava_toJava]

theorem filterMap_bodyLines : ∀ (es : List PoolEnt) (si : Nat),
    (cfgBodyLines es si).filterMap cfgLineBinding = (eligTexts es).enumFrom si := by
  intro es
  induction es with
  | nil => intro si; rfl
  | cons e es ih =>
    intro si
    rw [cfgBodyLines]
    by_cases he : e.elig
    · simp only [he, if_true, ite_true]
      simp only [List.filterMap_cons, cfgLineBinding_body si e.text]
      unfold eligTexts
      rw [List.filter_cons_of_pos he, List.map_cons]
      show (si, e.text) :: _ = (si, e.text) :: _
      rw [ih]
      rfl
    · simp only [he, Bool.false_eq_true, if_false, ite_false]
      unfold eligTexts
      rw [List.filter_cons_of_neg (by simp [he])]
      exact ih si

theorem mapGet_cons_hit (k : Nat) (v : String) (m : List (Nat × String))
    (h : ∀ x ∈ m, x.1 ≠ k) : mapGet ((k, v) :: m) k = some v := by
  unfold mapGet
  rw [List.reverse_cons, List.find?_append]
  have h0 : m.reverse.find? (fun p => p.1 = k) = none := by
    rw [List.find?_eq_none]
    intro x hx
    simp only [decide_eq_true_eq]
    exact h x (List.mem_reverse.1 hx)
  rw [h0]
  simp [List.find?_cons]

theorem mapGet_cons_skip (a : Nat × String) (m : List (Nat × String)) (k : Nat)
    (h : a.1 ≠ k) : mapGet (a :: m) k = mapGet m k := by
  unfold mapGet
  rw [List.reverse_cons, List.find?_append]
  have h1 : List.find? (fun p => p.1 = k) [a] = none := by
    simp [List.find?_cons, h]
  rw [h1]
  cases m.reverse.find? (fun p => p.1 = k) <;> rfl

theorem enumFrom_key_ge : ∀ (ts : List String) (si : Nat) (x : Nat × String),
    x ∈ ts.enumFrom si → si ≤ x.1 := by
  intro ts
  induction ts with
  | nil => intro si x hx; simp [List.enumFrom] at hx
  | cons t ts ih =>
    intro si x hx
    have hen : (t :: ts).enumFrom si = (si, t) :: ts.enumFrom (si + 1) := rfl
    rw [hen] at hx
    rcases List.mem_cons.1 hx with h | h
    · subst h; exact Nat.le_refl si
    · exact Nat.le_of_succ_le (ih (si + 1) x h)

theorem mapGet_enumFrom : ∀ (ts : List String) (si j : Nat),
    mapGet (ts.enumFrom si) (si + j) = ts.get? j := by
  intro ts
  induction ts with
  | nil => intro si j; rfl
  | cons t ts ih =>
    intro si j
    have hen : (t :: ts).enumFrom si = (si, t) :: ts.enumFrom (si + 1) := rfl
    rw [hen]
    cases j with
    | zero =>
      rw [Nat.add_zero]
      refine mapGet_cons_hit si t _ (fun x hx => ?hne)
      have := enumFrom_key_ge ts (si + 1) x hx
      omega
    | succ j =>
      rw [mapGet_cons_skip _ _ _ (by show si ≠ si + (j + 1); omega)]
      have hsh : si + (j + 1) = (si + 1) + j := by omega
      rw [hsh, ih]
      rfl

/-- Parsing the freshly extracted config recovers exactly the eligible texts,
numbered from 0, provided the file name neither contains a newline nor makes
the first header line itself parse as a binding. -/
theorem parseReplacements_cfg (name : String) (es : List PoolEnt)
    (hn : ('\n' : Char) ∉ name.data)
    (hsafe : findCfg (headerLine1 name) = none) :
    parseReplacements (cfgHeader name ++ cfgLinesOf es 0) = (eligTexts es).enumFrom 0 := by
  rw [parseReplacements_eq, splitLines_cfg name es hn]
  have h1 : cfgLineBinding (headerLine1 name) = none := by
    unfold cfgLineBinding; rw [hsafe]
  have h2 : cfgLineBinding ("# Only edit text inside quotes \"...\"" : String).data = none := rfl
  have h3 : cfgLineBinding ("# Format: str_ID = \"Value\"" : String).data = none := rfl
  have h4 : cfgLineBinding ([] : List Char) = none := rfl
  simp only [List.filterMap_cons, h1, h2, h3, h4, List.filterMap_append,
    List.filterMap_nil, List.append_nil]
  exact filterMap_bodyLines es 0

theorem drop_of_get (l : List Nat) (n a : Nat) (h : l.get? n = some a) :
    l.drop n = a :: l.drop (n + 1) := by
  obtain ⟨hlt, hg⟩ := List.get?_eq_some.1 h
  rw [List.drop_eq_getElem_cons hlt]
  congr 1

theorem slice_split (B : List Nat) (off len : Nat) :
    B.drop off = sliceBytes B off len ++ B.drop (off + len) := by
  unfold sliceBytes
  have h : B.drop (off + len) = (B.drop off).drop len := by
    rw [List.drop_drop]
  rw [h]
  exact (List.take_append_drop len (B.drop off)).symm

theorem getUint16_bytes (B : List Nat) (off v : Nat) (hB : ∀ b ∈ B, b < 256)
    (h : getUint16 B off = some v) :
    B.get? off = some (v / 256 % 256) ∧ B.get? (off + 1) = some (v % 256) ∧
      v < 65536 := by
  unfold getUint16 at h
  cases h1 : B.get? off with
  | none => rw [h1] at h; simp at h
  | some x =>
    cases h2 : B.get? (off + 1) with
    | none => rw [h1, h2] at h; simp at h
    | some y =>
      rw [h1, h2] at h
      simp only [Option.some.injEq] at h
      have hx : x < 256 := hB x (List.get?_mem h1)
      have hy : y < 256 := hB y (List.get?_mem h2)
      subst h
      refine ⟨?_, ?_, by omega⟩
      · simp only [Option.some.injEq]; omega
      · simp only [Option.some.injEq]; omega

/-- The bytes the walk traverses are exactly the concatenation of the
original bytes of its entries: the length fields it read are recoverable
as big-endian pairs and each payload slice abuts the next entry. -/
theorem poolWalk_bytes (B : List Nat) (hB : ∀ b ∈ B, b < 256) :
    ∀ slots off es fin, poolWalk B slots off = .ok (es, fin) →
      B.drop off = (es.map origBytes).flatten ++ B.drop fin := by
  intro slots off
  induction slots, off using poolWalk.induct B with
  | case1 off =>
    intro es fin hw
    rw [poolWalk] at hw
    simp only [Except.ok.injEq, Prod.mk.injEq] at hw
    obtain ⟨hes, hfin⟩ := hw
    subst hes; subst hfin
    simp
  | case2 slots off hnone =>
    intro es fin hw; rw [poolWalk] at hw; simp [hnone] at hw
  | case3 slots off h16 h8 =>
    intro es fin hw; rw [poolWalk] at hw; simp [h8, h16] at hw
  | case4 slots off len h16 es0 fin0 hww h8 ih =>
    intro es fin hw
    rw [poolWalk] at hw
    simp only [h8, h16, hww, ite_true, Except.ok.injEq, Prod.mk.injEq] at hw
    obtain ⟨hes, hfin⟩ := hw
    subst hes; subst hfin
    obtain ⟨hb1, hb2, hlt⟩ := getUint16_bytes B (off + 1) len hB h16
    have h0 : B.drop off = 1 :: B.drop (off + 1) := drop_of_get B off 1 h8
    have h1 : B.drop (off + 1) = len / 256 % 256 :: B.drop (off + 2) :=
      drop_of_get B (off + 1) _ hb1
    have h2 : B.drop (off + 2) = len % 256 :: B.drop (off + 3) :=
      drop_of_get B (off + 2) _ hb2
    have h3 : B.drop (off + 3) =
        sliceBytes B (off + 3) len ++ B.drop (off + 3 + len) :=
      slice_split B (off + 3) len
    rw [h0, h1, h2, h3, ih es0 fin0 hww]
    simp [origBytes, writeU2bytes]
  | case5 slots off len h16 e hww h8 ih =>
    intro es fin hw; rw [poolWalk] at hw; simp [h8, h16, hww] at hw
  | case6 off tag h8 hne sz hsz =>
    intro es fin hw
    rw [poolWalk] at hw
    simp only [h8, hne, hsz, ite_true, ite_false, Except.ok.injEq,
      Prod.mk.injEq] at hw
    obtain ⟨hes, hfin⟩ := hw
    subst hes; subst hfin
    have h0 : B.drop off = tag :: B.drop (off + 1) := drop_of_get B off tag h8
    have h1 : B.drop (off + 1) =
        sliceBytes B (off + 1) sz ++ B.drop (off + 1 + sz) :=
      slice_split B (off + 1) sz
    rw [h0, h1]
    simp [origBytes]
  | case7 off tag h8 hne sz slots2 es0 fin0 hww hsz ih =>
    intro es fin hw
    rw [poolWalk] at hw
    simp only [h8, hne, hsz, hww, ite_true, ite_false, Except.ok.injEq,
      Prod.mk.injEq] at hw
    obtain ⟨hes, hfin⟩ := hw
    subst hes; subst hfin
    have h0 : B.drop off = tag :: B.drop (off + 1) := drop_of_get B off tag h8
    have h1 : B.drop (off + 1) =
        sliceBytes B (off + 1) sz ++ B.drop (off + 1 + sz) :=
      slice_split B (off + 1) sz
    rw [h0, h1, ih es0 fin0 hww]
    simp [origBytes]
  | case8 off tag h8 hne sz slots2 e hww hsz ih =>
    intro es fin hw; rw [poolWalk] at hw; simp [h8, hne, hsz, hww] at hw
  | case9 slots off tag h8 hne sz wide hsz hnw es0 fin0 hww ih =>
    intro es fin hw
    rw [poolWalk] at hw
    simp only [Bool.not_eq_true] at hnw
    simp only [h8, hne, hsz, hnw, hww, ite_false, Bool.false_eq_true,
      Except.ok.injEq, Prod.mk.injEq] at hw
    obtain ⟨hes, hfin⟩ := hw
    subst hes; subst hfin
    have h0 : B.drop off = tag :: B.drop (off + 1) := drop_of_get B off tag h8
    have h1 : B.drop (off + 1) =
        sliceBytes B (off + 1) sz ++ B.drop (off + 1 + sz) :=
      slice_split B (off + 1) sz
    rw [h0, h1, ih es0 fin0 hww]
    simp [origBytes]
  | case10 slots off tag h8 hne sz wide hsz hnw e hww ih =>
    intro es fin hw
    rw [poolWalk] at hw
    simp only [Bool.not_eq_true] at hnw
    simp [h8, hne, hsz, hnw, hww] at hw
  | case11 slots off tag h8 hne hsz =>
    intro es fin hw; rw [poolWalk] at hw; simp [h8, hne, hsz] at hw

/-- Every non-Utf8 entry the walk records carries a tag read from the
buffer, hence a byte. -/
theorem poolWalk_other_tag_lt (B : List Nat) (hB : ∀ b ∈ B, b < 256) :
    ∀ slots off es fin, poolWalk B slots off = .ok (es, fin) →
      ∀ o t p, PoolEnt.other o t p ∈ es → t < 256 := by
  intro slots off
  induction slots, off using poolWalk.induct B with
  | case1 off =>
    intro es fin hw
    rw [poolWalk] at hw
    simp only [Except.ok.injEq, Prod.mk.injEq] at hw
    obtain ⟨hes, -⟩ := hw
    subst hes
    intro o t p hmem
    exact absurd hmem (List.not_mem_nil _)
  | case2 slots off hnone =>
    intro es fin hw; rw [poolWalk] at hw; simp [hnone] at hw
  | case3 slots off h16 h8 =>
    intro es fin hw; rw [poolWalk] at hw; simp [h8, h16] at hw
  | case4 slots off len h16 es0 fin0 hww h8 ih =>
    intro es fin hw
    rw [poolWalk] at hw
    simp only [h8, h16, hww, ite_true, Except.ok.injEq, Prod.mk.injEq] at hw
    obtain ⟨hes, -⟩ := hw
    subst hes
    intro o t p hmem
    rcases List.mem_cons.1 hmem with h | h
    · exact absurd h (by simp)
    · exact ih es0 fin0 hww o t p h
  | case5 slots off len h16 e hww h8 ih =>
    intro es fin hw; rw [poolWalk] at hw; simp [h8, h16, hww] at hw
  | case6 off tag h8 hne sz hsz =>
    intro es fin hw
    rw [poolWalk] at hw
    simp only [h8, hne, hsz, ite_true, ite_false, Except.ok.injEq,
      Prod.mk.injEq] at hw
    obtain ⟨hes, -⟩ := hw
    subst hes
    intro o t p hmem
    rcases List.mem_cons.1 hmem with h | h
    · obtain ⟨-, ht, -⟩ := PoolEnt.other.inj h
      rw [ht]
      exact hB tag (List.get?_mem h8)
    · exact absurd h (List.not_mem_nil _)
  | case7 off tag h8 hne sz slots2 es0 fin0 hww hsz ih =>
    intro es fin hw
    rw [poolWalk] at hw
    simp only [h8, hne, hsz, hww, ite_true, ite_false, Except.ok.injEq,
      Prod.mk.injEq] at hw
    obtain ⟨hes, -⟩ := hw
    subst hes
    intro o t p hmem
    rcases List.mem_cons.1 hmem with h | h
    · obtain ⟨-, ht, -⟩ := PoolEnt.other.inj h
      rw [ht]
      exact hB tag (List.get?_mem h8)
    · exact ih es0 fin0 hww o t p h
  | case8 off tag h8 hne sz slots2 e hww hsz ih =>
    intro es fin hw; rw [poolWalk] at hw; simp [h8, hne, hsz, hww] at hw
  | case9 slots off tag h8 hne sz wide hsz hnw es0 fin0 hww ih =>
    intro es fin hw
    rw [poolWalk] at hw
    simp only [Bool.not_eq_true] at hnw
    simp only [h8, hne, hsz, hnw, hww, ite_false, Bool.false_eq_true,
      Except.ok.injEq, Prod.mk.injEq] at hw
    obtain ⟨hes, -⟩ := hw
    subst hes
    intro o t p hmem
    rcases List.mem_cons.1 hmem with h | h
    · obtain ⟨-, ht, -⟩ := PoolEnt.other.inj h
      rw [ht]
      exact hB tag (List.get?_mem h8)
    · exact ih es0 fin0 hww o t p h
  | case10 slots off tag h8 hne sz wide hsz hnw e hww ih =>
    intro es fin hw
    rw [poolWalk] at hw
    simp only [Bool.not_eq_true] at hnw
    simp [h8, hne, hsz, hnw, hww] at hw
  | case11 slots off tag h8 hne hsz =>
    intro es fin hw; rw [poolWalk] at hw; simp [h8, hne, hsz] at hw

/-- A Utf8 entry whose payload slice was not clamped: its byte count equals
the declared length field (true whenever the declared length fits inside
the buffer). -/
def entSized : PoolEnt → Bool
  | .utf8 _ len p => p.length == len
  | .other _ _ _ => true

/-- An eligible Utf8 entry whose payload survives the decode/encode pair
(true exactly for well-formed, BOM-free UTF-8 payloads). -/
def entFaithful : PoolEnt → Bool
  | .utf8 _ _ p =>
    if isValidString (utf8Decode p) then utf8Encode (utf8Decode p) == p
    else true
  | .other _ _ _ => true

/-- If the replacements map answers every stableId from `si` on with the
unchanged decoded text of the corresponding eligible entry, the assembly
bytes of a well-sized, utf8-faithful walk segment reproduce its original
bytes. -/
theorem asmBytesOf_roundtrip (repl : List (Nat × String)) :
    ∀ (es : List PoolEnt) (si : Nat),
    (∀ j, mapGet repl (si + j) = (eligTexts es).get? j) →
    (∀ e ∈ es, entSized e = true) →
    (∀ e ∈ es, entFaithful e = true) →
    (∀ o t p, PoolEnt.other o t p ∈ es → t < 256) →
    asmBytesOf repl es si = (es.map origBytes).flatten := by
  intro es
  induction es with
  | nil => intro si _ _ _ _; rfl
  | cons e es ih =>
    intro si hmap hsz hf htag
    have hsz0 := hsz e (List.mem_cons_self _ _)
    have hf0 := hf e (List.mem_cons_self _ _)
    have hszr : ∀ x ∈ es, entSized x = true :=
      fun x hx => hsz x (List.mem_cons_of_mem _ hx)
    have hfr : ∀ x ∈ es, entFaithful x = true :=
      fun x hx => hf x (List.mem_cons_of_mem _ hx)
    have htagr : ∀ o t p, PoolEnt.other o t p ∈ es → t < 256 :=
      fun o t p hx => htag o t p (List.mem_cons_of_mem _ hx)
    cases e with
    | utf8 off len p =>
      have hlen : p.length = len := by
        simpa [entSized] using hsz0
      rw [asmBytesOf]
      by_cases hv : isValidString (utf8Decode p) = true
      · simp only [hv, ite_true]
        have heT : eligTexts (PoolEnt.utf8 off len p :: es) =
            utf8Decode p :: eligTexts es := by
          unfold eligTexts
          rw [List.filter_cons_of_pos (by simp [PoolEnt.elig, hv])]
          rfl
        have hm0 : mapGet repl si = some (utf8Decode p) := by
          have h := hmap 0
          rw [Nat.add_zero, heT] at h
          exact h
        have hfe : utf8Encode (utf8Decode p) = p := by
          have h := hf0
          simp only [entFaithful, hv, ite_true, beq_iff_eq] at h
          exact h
        rw [hm0]
        rw [ih (si + 1) ?hmm hszr hfr htagr]
        · simp [origBytes, hfe, hlen, List.map_cons, List.flatten_cons]
        case hmm =>
          intro j
          have h := hmap (j + 1)
          rw [show si + (j + 1) = si + 1 + j from by omega, heT] at h
          exact h
      · simp only [Bool.not_eq_true] at hv
        simp only [hv, Bool.false_eq_true, ite_false]
        have heT : eligTexts (PoolEnt.utf8 off len p :: es) = eligTexts es := by
          unfold eligTexts
          rw [List.filter_cons_of_neg (by simp [PoolEnt.elig, hv])]
        rw [ih si ?hmm2 hszr hfr htagr]
        · simp [origBytes, hlen, List.map_cons, List.flatten_cons]
        case hmm2 =>
          intro j
          have h := hmap j
          rw [heT] at h
          exact h
    | other off tag p =>
      have ht : tag < 256 := htag off tag p (List.mem_cons_self _ _)
      rw [asmBytesOf]
      have heT : eligTexts (PoolEnt.other off tag p :: es) = eligTexts es := by
        unfold eligTexts
        rw [List.filter_cons_of_neg (by simp [PoolEnt.elig])]
      rw [ih si ?hmm3 hszr hfr htagr]
      · simp [origBytes, Nat.mod_eq_of_lt ht, List.map_cons, List.flatten_cons]
      case hmm3 =>
        intro j
        have h := hmap j
        rw [heT] at h
        exact h

/-- The ten header bytes restored by the assembler (the copied first
eight plus the re-written pool count) are the original ones. -/
theorem take10_split (B : List Nat) (cp : Nat) (hB : ∀ b ∈ B, b < 256)
    (hcp : getUint16 B 8 = some cp) :
    B.take 8 ++ writeU2bytes cp = B.take 10 := by
  obtain ⟨h8, h9, hlt⟩ := getUint16_bytes B 8 cp hB hcp
  have h1 : B.take 10 = B.take 8 ++ (B.drop 8).take 2 := by
    rw [show (10 : Nat) = 8 + 2 from rfl, List.take_add]
  have h2 : B.drop 8 = cp / 256 % 256 :: B.drop 9 := drop_of_get B 8 _ h8
  have h3 : B.drop 9 = cp % 256 :: B.drop 10 := drop_of_get B 9 _ h9
  rw [h1, h2, h3]
  rfl

/-! ### C2: the round-trip identity -/

/-- Counterexample to C2 as stated: `invalidUtf8Buf` is a valid class file
(good magic, cleanly walking pool, only recognized tags), its single Utf8
entry is eligible, yet assembling the untouched extraction output does not
reproduce the input: the payload `41 42 C0 80` (modified UTF-8, as real
class files use for embedded NUL) decodes with two U+FFFD replacements and
re-encodes to 8 bytes, so the output grows and differs. -/
theorem roundtrip_identity_cex :
    poolWalk invalidUtf8Buf 1 10 =
      .ok ([PoolEnt.utf8 10 4 [0x41, 0x42, 0xC0, 0x80]], 17) ∧
    extractStringsFromClass invalidUtf8Buf "A.class" =
      .ok (cfgHeader "A.class" ++
        cfgLinesOf [PoolEnt.utf8 10 4 [0x41, 0x42, 0xC0, 0x80]] 0) ∧
    assembleClassFile invalidUtf8Buf
      (cfgHeader "A.class" ++
        cfgLinesOf [PoolEnt.utf8 10 4 [0x41, 0x42, 0xC0, 0x80]] 0) =
      .ok [0xCA, 0xFE, 0xBA, 0xBE, 0, 0, 0, 0, 0, 2,
           1, 0, 8, 0x41, 0x42, 0xEF, 0xBF, 0xBD, 0xEF, 0xBF, 0xBD] ∧
    ([0xCA, 0xFE, 0xBA, 0xBE, 0, 0, 0, 0, 0, 2,
      1, 0, 8, 0x41, 0x42, 0xEF, 0xBF, 0xBD, 0xEF, 0xBF, 0xBD] : List Nat) ≠
      invalidUtf8Buf :=
  ⟨rfl, rfl, rfl, by decide⟩

/-- C2 (amended): for every byte buffer with the correct magic whose pool
walks cleanly with recognized tags, whose Utf8 payload slices are
well-sized (declared lengths honoured, `entSized`) and survive the
UTF-8 decode/encode pair (`entFaithful` — this excludes the modified
UTF-8 and other non-UTF-8 payloads of the counterexample), and for every
file name without a newline whose header line does not itself parse as a
binding, assembling the untouched extraction output yields a buffer
byte-identical to the input. -/
theorem roundtrip_identity (B : List Nat) (name : String) (cp : Nat)
    (es : List PoolEnt) (fin : Nat)
    (hB : ∀ b ∈ B, b < 256)
    (hm : getUint32 B 0 = some 0xCAFEBABE)
    (hcp : getUint16 B 8 = some cp)
    (hw : poolWalk B (cp - 1) 10 = .ok (es, fin))
    (hsz : es.all entSized = true)
    (hf : es.all entFaithful = true)
    (hn : ('\n' : Char) ∉ name.data)
    (hsafe : findCfg (headerLine1 name) = none) :
    ∃ cfg, extractStringsFromClass B name = .ok cfg ∧
      assembleClassFile B cfg = .ok B := by
  refine ⟨cfgHeader name ++ cfgLinesOf es 0, ?_, ?_⟩
  · rw [extractStringsFromClass_eq_walk B name cp hm hcp, hw]
    rfl
  · rw [assembleClassFile_eq_walk B _ cp hm hcp, hw]
    show Except.ok (((B.take 8 ++ writeU2bytes cp) ++
        asmBytesOf (parseReplacements (cfgHeader name ++ cfgLinesOf es 0))
          es 0) ++ B.drop fin) = Except.ok B
    rw [parseReplacements_cfg name es hn hsafe]
    rw [asmBytesOf_roundtrip _ es 0
      (fun j => mapGet_enumFrom (eligTexts es) 0 j)
      (List.all_eq_true.1 hsz) (List.all_eq_true.1 hf)
      (poolWalk_other_tag_lt B hB (cp - 1) 10 es fin hw)]
    rw [take10_split B cp hB hcp, List.append_assoc,
      ← poolWalk_bytes B hB (cp - 1) 10 es fin hw, List.take_append_drop]

/-- Witness for the amended C2 at the concrete buffer `sampleClass`. -/
theorem roundtrip_identity_witness :
    ∃ cfg, extractStringsFromClass sampleClass "Main.class" = .ok cfg ∧
      assembleClassFile sampleClass cfg = .ok sampleClass :=
  roundtrip_identity sampleClass "Main.class" 3
    [PoolEnt.utf8 10 2 [0x4F, 0x4B], PoolEnt.other 15 3 [0, 0, 0, 0x2A]] 20
    (by decide) rfl rfl rfl (by decide) (by decide) (by decide) rfl

/-- Assembly bytes distribute over walk-segment concatenation; the tail
segment starts at the stableId advanced by the eligible entries of the
head segment. -/
theorem asmBytesOf_append (repl : List (Nat × String)) :
    ∀ (xs ys : List PoolEnt) (si : Nat),
    asmBytesOf repl (xs ++ ys) si =
      asmBytesOf repl xs si ++ asmBytesOf repl ys (si + eligCount xs) := by
  intro xs
  induction xs with
  | nil =>
    intro ys si
    simp [asmBytesOf, eligCount]
  | cons e xs ih =>
    intro ys si
    cases e with
    | utf8 off len p =>
      rw [List.cons_append, asmBytesOf, asmBytesOf]
      by_cases hv : isValidString (utf8Decode p) = true
      · simp only [hv, ite_true]
        rw [ih ys (si + 1), ← List.append_assoc]
        congr 2
        unfold eligCount
        rw [List.filter_cons_of_pos (by simp [PoolEnt.elig, hv])]
        rw [List.length_cons]
        omega
      · simp only [Bool.not_eq_true] at hv
        simp only [hv, Bool.false_eq_true, ite_false]
        rw [ih ys si, ← List.append_assoc]
        congr 2
        unfold eligCount
        rw [List.filter_cons_of_neg (by simp [PoolEnt.elig, hv])]
    | other off tag p =>
      rw [List.cons_append, asmBytesOf, asmBytesOf]
      rw [ih ys si, ← List.append_assoc]
      congr 2

/-- A 65536-character replacement value, one `a` per character. -/
def bigStr : String := ⟨List.replicate 65536 'a'⟩

/-- An edit text binding stableId 0 to `bigStr`. -/
def bigEdit : String := "str_0 = \"" ++ bigStr ++ "\""

/-- A valid class file whose single pool entry is the eligible Utf8
string `"AB"` and whose pool ends exactly at the end of the buffer. -/
def overflowBuf : List Nat :=
  [0xCA, 0xFE, 0xBA, 0xBE, 0, 0, 0, 0, 0, 2, 1, 0, 2, 0x41, 0x42]

theorem map_toJava_replicate_a : ∀ n : Nat,
    ((List.replicate n 'a').map toJavaUnicodeChar).flatten =
      List.replicate n 'a' := by
  intro n
  induction n with
  | zero => rfl
  | succ n ih =>
    rw [List.replicate_succ, List.map_cons, List.flatten_cons, ih]
    rfl

theorem utf8Encode_replicate_a : ∀ n : Nat,
    ((List.replicate n 'a').map utf8EncodeChar).flatten =
      List.replicate n 0x61 := by
  intro n
  induction n with
  | zero => rfl
  | succ n ih =>
    rw [List.replicate_succ, List.map_cons, List.flatten_cons, ih,
      List.replicate_succ]
    rfl

theorem utf8Encode_bigStr : utf8Encode bigStr = List.replicate 65536 0x61 :=
  utf8Encode_replicate_a 65536

theorem bigEdit_data : bigEdit.data = cfgLineBody 0 bigStr := by
  unfold bigEdit cfgLineBody
  rw [String.data_append, String.data_append]
  rw [show decimalRepr 0 = ['0'] from rfl,
    show bigStr.data = List.replicate 65536 'a' from rfl,
    map_toJava_replicate_a]
  rw [show ("str_0 = \"" : String).data =
      ['s', 't', 'r', '_', '0', ' ', '=', ' ', '"'] from rfl,
    show ("\"" : String).data = ['"'] from rfl,
    show ("str_" : String).data = ['s', 't', 'r', '_'] from rfl,
    show (" = \"" : String).data = [' ', '=', ' ', '"'] from rfl]
  simp only [List.cons_append, List.nil_append, List.append_assoc]

theorem parseReplacements_bigEdit :
    parseReplacements bigEdit = [(0, bigStr)] := by
  rw [parseReplacements_eq, bigEdit_data,
    splitLinesL_no_newline _ (cfgLineBody_no_newline 0 bigStr),
    List.filterMap_cons, cfgLineBinding_body 0 bigStr]
  rfl

/-! ### C3: length recomputation -/

/-- Counterexample to C3 as stated: on `overflowBuf` (valid class file,
one eligible `"AB"` entry), replacing the string by 65536 `a`s succeeds,
but the written 2-byte length field is `00 00` — `writeU2` truncates the
byte count modulo 2^16 — which is not "exactly equal" to the 65536-byte
count of the replacement. -/
theorem length_recomputation_cex :
    assembleClassFile overflowBuf bigEdit =
      .ok ([0xCA, 0xFE, 0xBA, 0xBE, 0, 0, 0, 0, 0, 2, 1, 0, 0] ++
        List.replicate 65536 0x61) ∧
    (utf8Encode bigStr).length = 65536 ∧
    writeU2bytes (utf8Encode bigStr).length = [0, 0] ∧
    (0 * 256 + 0 : Nat) ≠ (utf8Encode bigStr).length := by
  have hlen : (utf8Encode bigStr).length = 65536 := by
    rw [utf8Encode_bigStr, List.length_replicate]
  refine ⟨?_, hlen, by rw [hlen]; rfl, by rw [hlen]; omega⟩
  rw [assembleClassFile_eq_walk overflowBuf bigEdit 2 rfl rfl]
  rw [show poolWalk overflowBuf (2 - 1) 10 =
      .ok ([PoolEnt.utf8 10 2 [0x41, 0x42]], 15) from rfl]
  show Except.ok (((overflowBuf.take 8 ++ writeU2bytes 2) ++
      asmBytesOf (parseReplacements bigEdit)
        [PoolEnt.utf8 10 2 [0x41, 0x42]] 0) ++ overflowBuf.drop 15) = _
  rw [parseReplacements_bigEdit, asmBytesOf]
  rw [show isValidString (utf8Decode [0x41, 0x42]) = true from rfl]
  simp only [ite_true]
  rw [show mapGet [(0, bigStr)] 0 = some bigStr from rfl]
  show Except.ok (((overflowBuf.take 8 ++ writeU2bytes 2) ++
      ((1 :: (writeU2bytes (utf8Encode bigStr).length ++ utf8Encode bigStr)) ++
        asmBytesOf [(0, bigStr)] [] (0 + 1))) ++ overflowBuf.drop 15) = _
  rw [utf8Encode_bigStr, List.length_replicate]
  rw [show writeU2bytes 65536 = [0, 0] from rfl]
  rw [show asmBytesOf [(0, bigStr)] [] (0 + 1) = [] from rfl]
  rw [show overflowBuf.drop 15 = [] from rfl]
  rw [show overflowBuf.take 8 ++ writeU2bytes 2 =
      [0xCA, 0xFE, 0xBA, 0xBE, 0, 0, 0, 0, 0, 2] from rfl]
  simp only [List.append_nil, List.cons_append, List.nil_append,
    List.append_assoc]

/-- C3 (amended): for every buffer with the correct magic whose pool walk
isolates an eligible Utf8 entry at eligible rank `eligCount E1`, if the
edit text binds that stableId to `newText` and the replacement UTF-8 byte
count is below 2^16, the assembled output rewrites that entry as tag `1`,
a 2-byte big-endian length field that decodes exactly to the replacement
byte count, then the replacement bytes; everything after the pool is the
original suffix `B.drop fin`, appended verbatim after the rebuilt pool
(hence shifted by the total pool length delta with content unchanged). -/
theorem length_recomputation (B : List Nat) (txt : String) (cp fin : Nat)
    (E1 E2 : List PoolEnt) (off len : Nat) (p : List Nat) (newText : String)
    (hm : getUint32 B 0 = some 0xCAFEBABE)
    (hcp : getUint16 B 8 = some cp)
    (hw : poolWalk B (cp - 1) 10 =
      .ok (E1 ++ PoolEnt.utf8 off len p :: E2, fin))
    (hv : isValidString (utf8Decode p) = true)
    (hmr : mapGet (parseReplacements txt) (eligCount E1) = some newText)
    (hsmall : (utf8Encode newText).length < 65536) :
    assembleClassFile B txt =
      .ok (((B.take 8 ++ writeU2bytes cp) ++
        (asmBytesOf (parseReplacements txt) E1 0 ++
          ((1 :: (writeU2bytes (utf8Encode newText).length ++
              utf8Encode newText)) ++
            asmBytesOf (parseReplacements txt) E2 (eligCount E1 + 1)))) ++
        B.drop fin) ∧
    writeU2bytes (utf8Encode newText).length =
      [(utf8Encode newText).length / 256, (utf8Encode newText).length % 256] ∧
    (utf8Encode newText).length / 256 * 256 +
        (utf8Encode newText).length % 256 = (utf8Encode newText).length := by
  refine ⟨?_, ?_, by omega⟩
  · rw [assembleClassFile_eq_walk B txt cp hm hcp, hw]
    show Except.ok (((B.take 8 ++ writeU2bytes cp) ++
        asmBytesOf (parseReplacements txt)
          (E1 ++ PoolEnt.utf8 off len p :: E2) 0) ++ B.drop fin) = _
    rw [asmBytesOf_append (parseReplacements txt) E1 _ 0, Nat.zero_add]
    rw [asmBytesOf]
    simp only [hv, ite_true]
    rw [hmr]
  · have hdiv : (utf8Encode newText).length / 256 % 256 =
        (utf8Encode newText).length / 256 := by omega
    rw [writeU2bytes, hdiv]

/-- Witness for the amended C3 at the concrete buffer `sampleClass`,
replacing `"OK"` (2 bytes) by `"Yes"` (3 bytes). -/
theorem length_recomputation_witness :
    assembleClassFile sampleClass "str_0 = \"Yes\"" =
      .ok (((sampleClass.take 8 ++ writeU2bytes 3) ++
        (asmBytesOf (parseReplacements "str_0 = \"Yes\"") [] 0 ++
          ((1 :: (writeU2bytes (utf8Encode "Yes").length ++
              utf8Encode "Yes")) ++
            asmBytesOf (parseReplacements "str_0 = \"Yes\"")
              [PoolEnt.other 15 3 [0, 0, 0, 0x2A]]
              (eligCount ([] : List PoolEnt) + 1)))) ++
        sampleClass.drop 20) ∧
    writeU2bytes (utf8Encode "Yes").length =
      [(utf8Encode "Yes").length / 256, (utf8Encode "Yes").length % 256] ∧
    (utf8Encode "Yes").length / 256 * 256 +
        (utf8Encode "Yes").length % 256 = (utf8Encode "Yes").length :=
  length_recomputation sampleClass "str_0 = \"Yes\"" 3 20 []
    [PoolEnt.other 15 3 [0, 0, 0, 0x2A]] 10 2 [0x4F, 0x4B] "Yes"
    rfl rfl rfl rfl rfl (by decide)

end ByteEd
